import Mathlib

/-!
Verification of the schema-harmonization engine: a shallow embedding of the
core components (`src/core/transformer.py`, `src/core/schema_generator.py`,
`src/core/stats_extractor.py`, `src/core/metadata_generator.py`) together
with proofs and refutations of the specified properties.

Modelling conventions:
* Python strings are modelled as Lean `String`s; `str.lower`, `str.strip`
  and the regex character classes are modelled at ASCII precision (the
  repository's data is ASCII).
* `fuzzywuzzy.fuzz.ratio` (0.17+/0.18.0) is embedded with its decorator
  order: `check_for_equivalence` fires first, so two equal strings —
  including two empty strings — score 100; `check_empty_string` then
  returns 0 when either string is empty; the general case is the
  Levenshtein formulation `round(100 * (len1+len2-dist)/(len1+len2))`
  where `dist` is the edit distance with substitution cost 2, which
  equals `len1 + len2 - 2 * lcs(s1, s2)`; the score is therefore
  `round(200 * lcs / (len1+len2))` with Python round-half-to-even.
* pandas cell values are exact: an inductive `Cell` with rational numbers,
  strings and `null` (NaN/None).  A DataFrame is a list of named columns
  (pandas permits duplicate labels, which a list of pairs represents
  faithfully); all columns of a well-formed frame have equal length.
-/

namespace Harmonize

/-- Python `str.lower()` (ASCII). -/
def pyLower (s : String) : String := String.mk (s.toList.map Char.toLower)

/-- Python `str.strip()` (ASCII whitespace). -/
def pyStrip (s : String) : String :=
  String.mk (((s.toList.dropWhile Char.isWhitespace).reverse.dropWhile
    Char.isWhitespace).reverse)

/-- Remove every occurrence of character `c` (Python `str.replace(c, '')`). -/
def removeChar (c : Char) (s : String) : String :=
  String.mk (s.toList.filter (fun a => a ≠ c))

/-- Python `str.replace(old, new)` for single characters. -/
def replaceChar (old new : Char) (s : String) : String :=
  String.mk (s.toList.map (fun a => if a = old then new else a))

/-- `SchemaTransformer._normalize_string`: lowercase and strip, delete
characters outside `[^\w\s]` (keep alphanumerics, underscore, whitespace),
then delete underscores and spaces. -/
def normalize_string (s : String) : String :=
  String.mk ((((pyStrip (pyLower s)).toList.filter
    (fun c => c.isAlphanum || c = '_' || c.isWhitespace)).filter
      (fun c => c ≠ '_' ∧ c ≠ ' ')))

/-- Longest-common-subsequence length by the textbook recursion, driven by
a fuel counter so the recursion is structural; one unit of fuel is spent
per character consumed, so `|l1| + |l2|` fuel always suffices. -/
def lcsFuel : Nat → List Char → List Char → Nat
  | 0, _, _ => 0
  | _ + 1, [], _ => 0
  | _ + 1, _ :: _, [] => 0
  | fuel + 1, a :: as_, b :: bs =>
    if a = b then lcsFuel fuel as_ bs + 1
    else max (lcsFuel fuel (a :: as_) bs) (lcsFuel fuel as_ (b :: bs))

/-- Length of a longest common subsequence of two strings. -/
def lcsLen (s1 s2 : String) : Nat :=
  lcsFuel (s1.length + s2.length) s1.toList s2.toList

/-- Python `round` to the nearest integer, ties to even. -/
def pyRound (q : ℚ) : ℤ :=
  if q - (⌊q⌋ : ℚ) < 1/2 then ⌊q⌋
  else if 1/2 < q - (⌊q⌋ : ℚ) then ⌊q⌋ + 1
  else if ⌊q⌋ % 2 = 0 then ⌊q⌋ else ⌊q⌋ + 1

/-- Python `round(q, 2)`. -/
def pyRound2 (q : ℚ) : ℚ := (pyRound (q * 100) : ℚ) / 100

/-- Python `round` of the exact fraction `a / b` (`b ≠ 0`), ties to even,
in integer arithmetic. -/
def pyRoundNat (a b : Nat) : Nat :=
  if 2 * (a % b) < b then a / b
  else if b < 2 * (a % b) then a / b + 1
  else if (a / b) % 2 = 0 then a / b else a / b + 1

/-- `fuzzywuzzy.fuzz.ratio` (0.17+/0.18.0 decorator order): equal strings
— including two empty strings — score 100 (`check_for_equivalence`); then
0 when either string is empty (`check_empty_string`); otherwise
`round(100 * (2 * lcs) / (len1 + len2))` with Python rounding (see the
header comment). -/
def fuzz_score (s1 s2 : String) : ℤ :=
  if s1 = s2 then 100
  else if s1.length = 0 ∨ s2.length = 0 then 0
  else (pyRoundNat (200 * lcsLen s1 s2) (s1.length + s2.length) : ℤ)

/-- A pandas cell: an exact numeric value, a string, or a missing value
(NaN / None). -/
inductive Cell where
  | num (q : ℚ)
  | txt (s : String)
  | null
deriving DecidableEq, Repr

/-- A DataFrame: named columns in order; duplicate labels are permitted,
as in pandas. -/
abbrev DataFrame := List (String × List Cell)

/-- Number of rows (length of the index); well-formed frames give every
column this length. -/
def nRows (df : DataFrame) : Nat :=
  match df with
  | [] => 0
  | c :: _ => c.2.length

/-- Every column has the index's length. -/
def WellFormed (df : DataFrame) : Prop :=
  ∀ c ∈ df, c.2.length = nRows df

instance (df : DataFrame) : Decidable (WellFormed df) := by
  unfold WellFormed; infer_instance

/-- Digit-string to number. -/
def natOfDigits (ds : List Char) : Nat :=
  ds.foldl (fun a c => a * 10 + (c.toNat - 48)) 0

/-- Unsigned decimal literal: `digits`, `digits.digits`, `digits.` or
`.digits`; the value `ipart.fpart` is the exact fraction
`(ipart * 10^k + fpart) / 10^k`. -/
def parseUnsignedQ (l : List Char) : Option ℚ :=
  match l.splitOn '.' with
  | [ip] =>
    if ip ≠ [] ∧ ip.all Char.isDigit then some (Rat.divInt (natOfDigits ip) 1)
    else none
  | [ip, fp] =>
    if (ip ≠ [] ∨ fp ≠ []) ∧ ip.all Char.isDigit ∧ fp.all Char.isDigit then
      some (Rat.divInt (natOfDigits ip * 10 ^ fp.length + natOfDigits fp)
        (10 ^ fp.length))
    else none
  | _ => none

/-- Signed decimal literal. -/
def parseDecimal (l : List Char) : Option ℚ :=
  match l with
  | '-' :: rest => (parseUnsignedQ rest).map (fun q => -q)
  | '+' :: rest => parseUnsignedQ rest
  | _ => parseUnsignedQ l

/-- `pd.to_numeric(·, errors='coerce')` on one cell: numbers pass through,
missing stays missing (NaN), strings parse as decimal literals after
stripping whitespace, anything else coerces to missing. -/
def to_numeric_cell : Cell → Option ℚ
  | .num q => some q
  | .null => none
  | .txt s => parseDecimal (pyStrip s).toList

/-- `str()` of a cell as pandas `astype(str)` produces it: strings pass
through and missing renders as `"nan"`.  (Non-integral numbers would render
as decimal float literals; the placeholder fraction rendering here is never
relied upon by any theorem.) -/
def pyStrCell : Cell → String
  | .txt s => s
  | .null => "nan"
  | .num q => if q.den = 1 then toString q.num else toString q.num ++ "/" ++ toString q.den

/-- The unified schema as `SchemaTransformer.__init__` reads it:
`column_mappings` (standard column → raw-name variants, in dict insertion
order) and `column_types` (standard column → "string"/"integer"/"float"). -/
structure UnifiedSchema where
  column_mappings : List (String × List String)
  column_types : List (String × String)
deriving Repr, DecidableEq

/-- Outcome of the matching loop in `SchemaTransformer._find_best_match`:
either an early `return` from strategy 1/2, or fall-through carrying the
fuzzy best match, its score, and the loop variable `standard_col`'s final
value. -/
inductive ScanState where
  | ret (std : String)
  | fell (best : Option String) (score : ℤ) (lastStd : Option String)
deriving DecidableEq, Repr

/-- Strategy 3 accumulation over one standard column's variants:
`if score > best_score` updates the running best. -/
def fuzz_scan_variants (origNorm std : String) (vars : List String)
    (acc : Option String × ℤ) : Option String × ℤ :=
  vars.foldl (fun bs v =>
    let s := fuzz_score origNorm (normalize_string v)
    if bs.2 < s then (some std, s) else bs) acc

/-- The `for standard_col, variations in self.column_mappings.items()` loop
of `_find_best_match`: per column, strategy 1 (exact membership) and
strategy 2 (case-insensitive membership) return immediately; otherwise
strategy 3 folds the fuzzy scores and the loop proceeds. -/
def find_scan (origCol origLower origNorm : String) :
    List (String × List String) → Option String → ℤ → Option String → ScanState
  | [], best, score, lastStd => .fell best score lastStd
  | (std, vars) :: rest, best, score, _ =>
    if origCol ∈ vars then .ret std
    else if origLower ∈ vars.map pyLower then .ret std
    else
      let bs := fuzz_scan_variants origNorm std vars (best, score)
      find_scan origCol origLower origNorm rest bs.1 bs.2 (some std)

/-- `SchemaTransformer._find_best_match`.  After the loop: accept the fuzzy
best at score ≥ 85; otherwise strategy 4 compares the normalized raw name
against `self._normalize_string(standard_col)` — the loop variable's final
value, i.e. the LAST standard column of the schema — guarded by
`if best_match` and by truthiness of the normalized string, and returns
`best_match` when that comparison scores ≥ 85. -/
def find_best_match (schema : UnifiedSchema) (original_col : String) : Option String :=
  let origLower := pyStrip (pyLower original_col)
  let origNorm := normalize_string original_col
  match find_scan original_col origLower origNorm schema.column_mappings none 0 none with
  | .ret std => some std
  | .fell best score lastStd =>
    if 85 ≤ score then best
    else
      match best, lastStd with
      | some b, some l =>
        let sn := normalize_string l
        if sn ≠ "" then (if 85 ≤ fuzz_score origNorm sn then some b else none) else none
      | _, _ => none

/-- Post-rename name of a raw column. -/
def renamedName (schema : UnifiedSchema) (c : String × List Cell) : String :=
  match find_best_match schema c.1 with
  | some x => x
  | none => c.1

/-- `SchemaTransformer._build_file_mapping`: the raw → standard dict for
this file's columns (columns with no match are left out). -/
def build_file_mapping (schema : UnifiedSchema) (file_columns : List String) :
    List (String × String) :=
  file_columns.filterMap (fun c => (find_best_match schema c).map (fun std => (c, std)))

/-- Renaming of one column under the raw → standard dict. -/
def renameStep (mapping : List (String × String)) (col : String × List Cell) :
    String × List Cell :=
  match mapping.lookup col.1 with
  | some std => (std, col.2)
  | none => col

/-- `df.rename(columns=column_mapping)`. -/
def rename_columns (mapping : List (String × String)) (df : DataFrame) : DataFrame :=
  df.map (renameStep mapping)

/-- Conversion of one column's values to a declared target type, as in
`SchemaTransformer._convert_types`:
* "integer": `pd.to_numeric(errors='coerce').astype('Int64')` — the cast
  raises when a coerced value is non-integral, the surrounding
  `try/except: pass` then leaves the column unchanged;
* "float": `pd.to_numeric(errors='coerce')`;
* "string": `astype(str)`;
* unknown type names: untouched. -/
def convert_column (target : String) (vs : List Cell) : List Cell :=
  if target = "integer" then
    let coerced := vs.map to_numeric_cell
    if coerced.all (fun o => match o with | none => true | some q => q.den = 1) then
      coerced.map (fun o => match o with | none => Cell.null | some q => Cell.num q)
    else vs
  else if target = "float" then
    vs.map (fun c => match to_numeric_cell c with | none => Cell.null | some q => Cell.num q)
  else if target = "string" then
    vs.map (fun c => Cell.txt (pyStrCell c))
  else vs

/-- Column label occurs more than once in the frame. -/
def dupName (df : DataFrame) (n : String) : Prop :=
  1 < (df.filter (fun c => c.1 = n)).length

instance (df : DataFrame) (n : String) : Decidable (dupName df n) := by
  unfold dupName; infer_instance

/-- Conversion of one column of the frame `df` (the frame is consulted for
duplicate labels). -/
def convertStep (schema : UnifiedSchema) (df : DataFrame) (col : String × List Cell) :
    String × List Cell :=
  match schema.column_types.lookup col.1 with
  | none => col
  | some t =>
    if (t = "integer" ∨ t = "float") ∧ dupName df col.1 then col
    else (col.1, convert_column t col.2)

/-- `SchemaTransformer._convert_types`: every column whose (post-rename)
name has a declared type is converted.  When a label is duplicated,
`pd.to_numeric` on the resulting sub-DataFrame raises and the
`except: pass` leaves those columns unchanged; `astype(str)` applies
elementwise either way. -/
def convert_types (schema : UnifiedSchema) (df : DataFrame) : DataFrame :=
  df.map (convertStep schema df)

/-- `SchemaTransformer._reorder_columns`: standard columns (in
`column_mappings` key order) that occur in the frame, then the remaining
labels in frame order; selection `df[cols]` takes every column matching
each listed label. -/
def reorder_columns (schema : UnifiedSchema) (df : DataFrame) : DataFrame :=
  let names := df.map Prod.fst
  let ordered := (schema.column_mappings.map Prod.fst).filter (fun k => names.contains k)
  let extra := names.filter (fun n => !(ordered.contains n))
  (ordered ++ extra).flatMap (fun k => df.filter (fun c => c.1 = k))

/-- `SchemaTransformer.transform`: build the per-file mapping, rename,
convert types, reorder; returns the harmonized frame and the mapping. -/
def transform (schema : UnifiedSchema) (df : DataFrame) :
    DataFrame × List (String × String) :=
  let mapping := build_file_mapping schema (df.map Prod.fst)
  let renamed := rename_columns mapping df
  let converted := convert_types schema renamed
  (reorder_columns schema converted, mapping)

/-! ## Schema generator (`src/core/schema_generator.py`) -/

/-- Python dict insert-or-overwrite preserving insertion order. -/
def dictInsert {α : Type} (k : String) (v : α) (m : List (String × α)) :
    List (String × α) :=
  if (m.map Prod.fst).contains k then
    m.map (fun e => if e.1 = k then (k, v) else e)
  else m ++ [(k, v)]

/-- `column_mappings[k].append(x)` (the key is known to be present). -/
def dictAppend (k x : String) (m : List (String × List String)) :
    List (String × List String) :=
  m.map (fun e => if e.1 = k then (e.1, e.2 ++ [x]) else e)

/-- `s.lower().replace('_', '').replace(' ', '')`. -/
def lowerNoSep (s : String) : String :=
  removeChar ' ' (removeChar '_' (pyLower s))

/-- The best-scoring standard column in `_auto_fix_missing_columns`:
the missing name's normalization is scored against
`standard_col.lower().replace('_', '')` for every existing key. -/
def auto_fix_best (missingNorm : String) (keys : List String) : Option String × ℤ :=
  keys.foldl (fun bs std =>
    let s := fuzz_score missingNorm (removeChar '_' (pyLower std))
    if bs.2 < s then (some std, s) else bs) (none, 0)

/-- One iteration of `_auto_fix_missing_columns`: append to the best match
when `best_match and best_score > 70`, otherwise create a brand-new
standard column `missing_col.lower().replace(' ', '_')` holding just the
missing name, typed "string". -/
def auto_fix_step (schema : UnifiedSchema) (missing_col : String) : UnifiedSchema :=
  let mnorm := lowerNoSep missing_col
  let bs := auto_fix_best mnorm (schema.column_mappings.map Prod.fst)
  match bs.1 with
  | some b =>
    if 70 < bs.2 then
      ⟨dictAppend b missing_col schema.column_mappings, schema.column_types⟩
    else
      let k := replaceChar ' ' '_' (pyLower missing_col)
      ⟨dictInsert k [missing_col] schema.column_mappings,
       dictInsert k "string" schema.column_types⟩
  | none =>
    let k := replaceChar ' ' '_' (pyLower missing_col)
    ⟨dictInsert k [missing_col] schema.column_mappings,
     dictInsert k "string" schema.column_types⟩

/-- `UnifiedSchemaGenerator._auto_fix_missing_columns`. -/
def auto_fix_missing_columns (schema : UnifiedSchema) (missing : List String) :
    UnifiedSchema :=
  missing.foldl auto_fix_step schema

/-- `needle` begins `hay`. -/
def isLead : List Char → List Char → Bool
  | [], _ => true
  | _ :: _, [] => false
  | a :: as_, b :: bs => a = b && isLead as_ bs

/-- Remainder of `hay` after the first occurrence of `needle`. -/
def dropSub (needle : List Char) : List Char → Option (List Char)
  | [] => if isLead needle [] then some [] else none
  | b :: t =>
    if isLead needle (b :: t) then some ((b :: t).drop needle.length)
    else dropSub needle t

/-- `needle` occurs inside `hay` (`re.search` for a literal pattern). -/
def strContainsSub (hay needle : String) : Bool :=
  (dropSub needle.toList hay.toList).isSome

/-- Minimum of a list of rationals (0 for the empty list, which the code
never queries). -/
def listMinQ : List ℚ → ℚ
  | [] => 0
  | x :: xs => xs.foldl (fun a b => if b < a then b else a) x

/-- Maximum of a list of rationals. -/
def listMaxQ : List ℚ → ℚ
  | [] => 0
  | x :: xs => xs.foldl (fun a b => if a < b then b else a) x

/-- Python `int()` on a number: truncation toward zero (exact on the
normalized fraction). -/
def pyInt (q : ℚ) : ℤ := Int.tdiv q.num (q.den : ℤ)

/-- Result of `StatsExtractor._get_temporal_range`. -/
structure TemporalInfo where
  min_year : Option ℤ
  max_year : Option ℤ
  range_str : String
deriving DecidableEq, Repr

/-- The valid years collected by `_get_temporal_range`: over every column
whose lowercased name contains "year", the numeric coercions that survive
`(numeric_vals > 1900) & (numeric_vals < 2030)` — strict on both ends. -/
def temporal_valid_years (df : DataFrame) : List ℚ :=
  (df.filter (fun c => strContainsSub (pyLower c.1) "year")).flatMap (fun c =>
    (c.2.filterMap to_numeric_cell).filter (fun v => 1900 < v ∧ v < 2030))

/-- `StatsExtractor._get_temporal_range`. -/
def get_temporal_range (df : DataFrame) : TemporalInfo :=
  let valid := temporal_valid_years df
  if valid = [] then ⟨none, none, "Unknown"⟩
  else
    let min_y := pyInt (listMinQ valid)
    let max_y := pyInt (listMaxQ valid)
    ⟨some min_y, some max_y,
     if min_y = max_y then toString min_y
     else toString min_y ++ "-" ++ toString max_y⟩

/-! ## Metadata generator (`src/core/metadata_generator.py`) -/

/-- Count of missing cells, `df.isnull().sum().sum()`. -/
def nullCount (df : DataFrame) : Nat :=
  (df.map (fun c => c.2.countP (fun x => x = Cell.null))).sum

/-- pandas `df.empty`: an axis of length zero. -/
def dfEmpty (df : DataFrame) : Prop :=
  df = [] ∨ nRows df = 0

instance (df : DataFrame) : Decidable (dfEmpty df) := by
  unfold dfEmpty; infer_instance

/-- `MetadataGenerator._calculate_completeness`. -/
def calculate_completeness (df : DataFrame) : ℚ :=
  if dfEmpty df ∨ df.length = 0 then 0
  else pyRound2 (1 - (nullCount df : ℚ) / ((nRows df : ℚ) * (df.length : ℚ)))

/-- `MetadataGenerator._calculate_schema_coverage`; the transformation
log's `mapping` dict is the raw → standard association list. -/
def calculate_schema_coverage (df : DataFrame) (mapping : List (String × String)) : ℚ :=
  if dfEmpty df then 0
  else if df.length = 0 ∨ mapping = [] then 0
  else pyRound2 (min ((mapping.length : ℚ) / (max (df.length : ℚ) 1)) 1)

/-- A metadata document: sections of text fields, as the generator reads
it back from the inference step (`metadata.get(section, {}).get(field)`). -/
abbrev MetaDoc := List (String × List (String × String))

/-- `metadata.get(section, {}).get(field)`. -/
def metaGet (m : MetaDoc) (sec fld : String) : Option String :=
  (m.lookup sec).bind (fun s => s.lookup fld)

/-- Python truthiness of an optional text field. -/
def truthyField : Option String → Bool
  | some v => v ≠ ""
  | none => false

/-- The fixed six-entry required-field checklist of
`_calculate_quality_metrics`. -/
def required_fields : List (String × String) :=
  [("catalog_info", "title"), ("catalog_info", "description"),
   ("catalog_info", "sector"), ("provenance", "source"),
   ("spatial_temporal", "temporal_coverage"), ("spatial_temporal", "spatial_coverage")]

/-- The quality-metrics block. -/
structure QualityMetrics where
  metadata_completeness : ℚ
  data_completeness : ℚ
  schema_coverage : ℚ
  quality_score : ℚ
deriving DecidableEq, Repr

/-- `MetadataGenerator._calculate_quality_metrics`. -/
def calculate_quality_metrics (metadata : MetaDoc) (data_completeness schema_coverage : ℚ) :
    QualityMetrics :=
  let filled := required_fields.countP (fun rf => truthyField (metaGet metadata rf.1 rf.2))
  let metadata_completeness := pyRound2 ((filled : ℚ) / (required_fields.length : ℚ))
  { metadata_completeness := metadata_completeness
    data_completeness := data_completeness
    schema_coverage := schema_coverage
    quality_score := pyRound2 ((metadata_completeness + data_completeness + schema_coverage) / 3) }

/-- A calendar date at day precision (`pandas.Timestamp.date()`). -/
structure PDate where
  y : Nat
  m : Nat
  d : Nat
deriving DecidableEq, Repr

/-- Total order key for dates. -/
def PDate.key (a : PDate) : Nat := a.y * 10000 + a.m * 100 + a.d

/-- Zero-padded rendering helpers and `date.isoformat()`. -/
def pad2 (n : Nat) : String := if n < 10 then "0" ++ toString n else toString n

def pad4 (n : Nat) : String :=
  if n < 10 then "000" ++ toString n
  else if n < 100 then "00" ++ toString n
  else if n < 1000 then "0" ++ toString n
  else toString n

def PDate.iso (a : PDate) : String := pad4 a.y ++ "-" ++ pad2 a.m ++ "-" ++ pad2 a.d

/-- `pd.to_datetime(·, errors='coerce')` on one cell, at the precision
this development needs: ISO `YYYY-MM-DD` strings and bare year strings
parse; missing coerces to NaT; numeric cells are nanosecond offsets from
the epoch, which collapse to 1970-01-01 at day precision for the
magnitudes arising here (this branch is exercised by no theorem). -/
def pdParseDate : Cell → Option PDate
  | .num _ => some ⟨1970, 1, 1⟩
  | .null => none
  | .txt s =>
    match ((pyStrip s).toList.splitOn '-').map (fun p => (p, natOfDigits p)) with
    | [(yp, y)] =>
      if yp.length = 4 ∧ yp.all Char.isDigit then some ⟨y, 1, 1⟩ else none
    | [(yp, y), (mp, m), (dp, d)] =>
      if yp.length = 4 ∧ yp.all Char.isDigit ∧ mp ≠ [] ∧ mp.all Char.isDigit ∧
          dp ≠ [] ∧ dp.all Char.isDigit ∧ 1 ≤ m ∧ m ≤ 12 ∧ 1 ≤ d ∧ d ≤ 31 then
        some ⟨y, m, d⟩
      else none
    | _ => none

/-- `MetadataGenerator._is_integer_year` on an exact numeric value. -/
def is_integer_year (q : ℚ) : Bool := q.den = 1

/-- Rendering of a two-decimal-rounded float, `str(round(x, 2))`:
`"2023.0"`, `"2023.5"`, `"2023.55"`. -/
def qStrRounded (q : ℚ) : String :=
  let n := pyRound (q * 100)
  let sign := if n < 0 then "-" else ""
  let a := n.natAbs
  let ip := a / 100
  let fr := a % 100
  if fr = 0 then sign ++ toString ip ++ ".0"
  else if fr % 10 = 0 then sign ++ toString ip ++ "." ++ toString (fr / 10)
  else sign ++ toString ip ++ "." ++ pad2 fr

/-- The column is of a numeric pandas dtype: every cell is a number or
missing. -/
def isNumericDtype (vs : List Cell) : Bool :=
  vs.all (fun c => match c with | .num _ => true | .null => true | .txt _ => false)

/-- Minimum of a list of dates. -/
def listMinDate : List PDate → PDate
  | [] => ⟨1970, 1, 1⟩
  | x :: xs => xs.foldl (fun a b => if b.key < a.key then b else a) x

/-- Maximum of a list of dates. -/
def listMaxDate : List PDate → PDate
  | [] => ⟨1970, 1, 1⟩
  | x :: xs => xs.foldl (fun a b => if a.key < b.key then b else a) x

/-- The per-column body of `_extract_temporal_coverage`'s loop. -/
def extract_tc_loop : List (String × List Cell) → Option String
  | [] => none
  | c :: rest =>
    let series := c.2.filter (fun x => x ≠ Cell.null)
    if series = [] then extract_tc_loop rest
    else
      let numericPart : Option String :=
        if isNumericDtype c.2 then
          let years := series.filterMap to_numeric_cell
          if years ≠ [] then
            if years.all is_integer_year then
              let min_year := pyInt (listMinQ years)
              let max_year := pyInt (listMaxQ years)
              some (if min_year = max_year then toString min_year
                    else toString min_year ++ "-" ++ toString max_year)
            else
              let min_year := pyRound2 (listMinQ years)
              let max_year := pyRound2 (listMaxQ years)
              some (if min_year = max_year then qStrRounded min_year
                    else qStrRounded min_year ++ "-" ++ qStrRounded max_year)
          else none
        else none
      match numericPart with
      | some r => some r
      | none =>
        let parsed := series.filterMap pdParseDate
        if parsed ≠ [] then
          let min_date := (listMinDate parsed).iso
          let max_date := (listMaxDate parsed).iso
          some (if min_date = max_date then min_date
                else min_date ++ " to " ++ max_date)
        else extract_tc_loop rest

/-- The columns `_extract_temporal_coverage` scans: lowercased name
contains "year", "date" or "time". -/
def temporal_token_cols (df : DataFrame) : List (String × List Cell) :=
  df.filter (fun c =>
    ["year", "date", "time"].any (fun tok => strContainsSub (pyLower c.1) tok))

/-- `MetadataGenerator._extract_temporal_coverage`: the first column whose
lowercased name contains "year", "date" or "time" and that yields values,
reported without any plausibility window. -/
def extract_temporal_coverage (df : DataFrame) : Option String :=
  extract_tc_loop (temporal_token_cols df)

/-- A temporal-token column the loop of `_extract_temporal_coverage` skips:
nothing left after `dropna`, or (for a non-numeric column) nothing
datetime-parseable either. -/
def tc_skips (c : String × List Cell) : Bool :=
  let series := c.2.filter (fun x => x ≠ Cell.null)
  series.isEmpty || (!isNumericDtype c.2 && (series.filterMap pdParseDate).isEmpty)

/-! ## Spec-side reference definitions

The remaining definitions are not translations of the source: each is
modelled on the words of one spec claim, clearly named `..._claimed`, and
exists to be compared against the embedded source behaviour. -/

/-- One standard column passes the exact-or-case-insensitive layers for a
raw name. -/
def exact_or_ci (origCol origLower : String) (e : String × List String) : Bool :=
  e.2.contains origCol || (e.2.map pyLower).contains origLower

/-- Strategy-3 accumulation over the whole schema. -/
def fuzzy_best (origNorm : String) (ms : List (String × List String)) :
    Option String × ℤ :=
  ms.foldl (fun acc e => fuzz_scan_variants origNorm e.1 e.2 acc) (none, 0)

/-- The matcher as the Column Matcher claim describes it (layer-major
order): an exact variant match anywhere in the schema wins first, then a
case-insensitive variant match anywhere, then the fuzzy candidate at
score ≥ 85, and finally the raw name against the CANDIDATE's own standard
display name at ≥ 85. -/
def find_best_match_claimed (schema : UnifiedSchema) (original_col : String) :
    Option String :=
  let origLower := pyStrip (pyLower original_col)
  let origNorm := normalize_string original_col
  match schema.column_mappings.find? (fun e => e.2.contains original_col) with
  | some e => some e.1
  | none =>
    match schema.column_mappings.find? (fun e => (e.2.map pyLower).contains origLower) with
    | some e => some e.1
    | none =>
      match fuzzy_best origNorm schema.column_mappings with
      | (some b, score) =>
        if 85 ≤ score then some b
        else if 85 ≤ fuzz_score origNorm (normalize_string b) then some b
        else none
      | (none, _) => none

/-- The matcher the source implements, restated in layered form: the first
standard column passing the exact-or-case-insensitive test (columns are
scanned in order, both tests per column); otherwise the fuzzy best at
score ≥ 85; otherwise the comparison against the LAST schema entry's
display name (truthiness-guarded), returning the fuzzy candidate. -/
def find_best_match_amended (schema : UnifiedSchema) (original_col : String) :
    Option String :=
  let origLower := pyStrip (pyLower original_col)
  let origNorm := normalize_string original_col
  match schema.column_mappings.find? (exact_or_ci original_col origLower) with
  | some e => some e.1
  | none =>
    match fuzzy_best origNorm schema.column_mappings with
    | (some b, score) =>
      if 85 ≤ score then some b
      else
        match schema.column_mappings.getLast? with
        | some last =>
          let sn := normalize_string last.1
          if sn ≠ "" then (if 85 ≤ fuzz_score origNorm sn then some b else none)
          else none
        | none => none
    | (none, _) => none

/-- The temporal window as the stats-extractor claim states it: values
within 1900–2030 inclusive. -/
def temporal_valid_years_claimed (df : DataFrame) : List ℚ :=
  (df.filter (fun c => strContainsSub (pyLower c.1) "year")).flatMap (fun c =>
    (c.2.filterMap to_numeric_cell).filter (fun v => 1900 ≤ v ∧ v ≤ 2030))

/-- The temporal range under the claimed inclusive window. -/
def get_temporal_range_claimed (df : DataFrame) : TemporalInfo :=
  let valid := temporal_valid_years_claimed df
  if valid = [] then ⟨none, none, "Unknown"⟩
  else
    let min_y := pyInt (listMinQ valid)
    let max_y := pyInt (listMaxQ valid)
    ⟨some min_y, some max_y,
     if min_y = max_y then toString min_y
     else toString min_y ++ "-" ++ toString max_y⟩

/-- The repair scoring as the claim states it: the best score over every
existing standard column's own name AND each of its normalized variants. -/
def auto_fix_best_claimed (missingNorm : String)
    (ms : List (String × List String)) : Option String × ℤ :=
  ms.foldl (fun bs e =>
    let cands := removeChar '_' (pyLower e.1) :: e.2.map lowerNoSep
    cands.foldl (fun bs2 cand =>
      let s := fuzz_score missingNorm cand
      if bs2.2 < s then (some e.1, s) else bs2) bs) (none, 0)

/-! ## General lemmas -/

theorem pyRound_nonneg (q : ℚ) (h : 0 ≤ q) : 0 ≤ pyRound q := by
  unfold pyRound
  have hf : (0 : ℤ) ≤ ⌊q⌋ := Int.floor_nonneg.mpr h
  split_ifs <;> omega

theorem pyRound_le (q : ℚ) (n : ℤ) (h : q ≤ (n : ℚ)) : pyRound q ≤ n := by
  unfold pyRound
  have hfn : ⌊q⌋ ≤ n := by
    have h2 := Int.floor_le_floor h
    simpa using h2
  have hfl : (⌊q⌋ : ℚ) ≤ q := Int.floor_le q
  split_ifs with h1 h2 h3
  · exact hfn
  · have h4 : (⌊q⌋ : ℚ) < (n : ℚ) := by linarith
    have h5 : ⌊q⌋ < n := by exact_mod_cast h4
    omega
  · exact hfn
  · have hr : (1 : ℚ)/2 ≤ q - (⌊q⌋ : ℚ) := le_of_not_lt h1
    have h4 : (⌊q⌋ : ℚ) < (n : ℚ) := by linarith
    have h5 : ⌊q⌋ < n := by exact_mod_cast h4
    omega

theorem pyRound2_nonneg (q : ℚ) (h : 0 ≤ q) : 0 ≤ pyRound2 q := by
  unfold pyRound2
  have h1 : (0 : ℤ) ≤ pyRound (q * 100) := pyRound_nonneg _ (by nlinarith)
  have h2 : (0 : ℚ) ≤ (pyRound (q * 100) : ℚ) := by exact_mod_cast h1
  exact div_nonneg h2 (by norm_num)

theorem pyRound2_le_one (q : ℚ) (h : q ≤ 1) : pyRound2 q ≤ 1 := by
  unfold pyRound2
  have h1 : pyRound (q * 100) ≤ (100 : ℤ) := pyRound_le _ _ (by push_cast; linarith)
  have h2 : (pyRound (q * 100) : ℚ) ≤ 100 := by exact_mod_cast h1
  rw [div_le_one (by norm_num)]
  exact h2

theorem nullCount_le (df : DataFrame) (hwf : WellFormed df) :
    nullCount df ≤ df.length * nRows df := by
  unfold nullCount
  calc (df.map (fun c => c.2.countP (fun x => x = Cell.null))).sum
      ≤ (df.map (fun c => c.2.length)).sum := by
        apply List.sum_le_sum
        intro c _
        exact List.countP_le_length _
    _ = (df.map (fun _ => nRows df)).sum := by
        congr 1
        apply List.map_congr_left
        intro c hc
        exact hwf c hc
    _ = df.length * nRows df := by
        rw [List.map_const', List.sum_replicate, smul_eq_mul]

theorem calculate_completeness_bounds (df : DataFrame) (hwf : WellFormed df) :
    0 ≤ calculate_completeness df ∧ calculate_completeness df ≤ 1 := by
  unfold calculate_completeness
  split_ifs with h
  · norm_num
  · push_neg at h
    obtain ⟨hne, hlen⟩ := h
    unfold dfEmpty at hne
    push_neg at hne
    have hr : nRows df ≠ 0 := hne.2
    have hrpos : (0 : ℚ) < (nRows df : ℚ) := by exact_mod_cast Nat.pos_of_ne_zero hr
    have hlpos : (0 : ℚ) < (df.length : ℚ) := by exact_mod_cast Nat.pos_of_ne_zero hlen
    have hpos : (0 : ℚ) < (nRows df : ℚ) * (df.length : ℚ) := mul_pos hrpos hlpos
    have hx0 : 0 ≤ (nullCount df : ℚ) / ((nRows df : ℚ) * (df.length : ℚ)) :=
      div_nonneg (by positivity) (le_of_lt hpos)
    have hx1 : (nullCount df : ℚ) / ((nRows df : ℚ) * (df.length : ℚ)) ≤ 1 := by
      rw [div_le_one hpos]
      have hn := nullCount_le df hwf
      have hn2 : (nullCount df : ℚ) ≤ ((df.length * nRows df : ℕ) : ℚ) := by exact_mod_cast hn
      calc (nullCount df : ℚ) ≤ ((df.length * nRows df : ℕ) : ℚ) := hn2
        _ = (nRows df : ℚ) * (df.length : ℚ) := by push_cast; ring
    exact ⟨pyRound2_nonneg _ (by linarith), pyRound2_le_one _ (by linarith)⟩

theorem calculate_schema_coverage_bounds (df : DataFrame) (mapping : List (String × String)) :
    0 ≤ calculate_schema_coverage df mapping ∧ calculate_schema_coverage df mapping ≤ 1 := by
  unfold calculate_schema_coverage
  split_ifs with h1 h2
  · norm_num
  · norm_num
  · have hd : (0 : ℚ) ≤ (mapping.length : ℚ) / (max (df.length : ℚ) 1) :=
      div_nonneg (by positivity) (le_trans (by norm_num) (le_max_right _ 1))
    have hge : (0 : ℚ) ≤ min ((mapping.length : ℚ) / (max (df.length : ℚ) 1)) 1 :=
      le_min hd (by norm_num)
    have hle : min ((mapping.length : ℚ) / (max (df.length : ℚ) 1)) 1 ≤ 1 :=
      min_le_right _ _
    exact ⟨pyRound2_nonneg _ hge, pyRound2_le_one _ hle⟩

/-! ## Claim C6 -/

/-- C6: for every metadata record produced, the three sub-scores
(metadata completeness — the truthy fraction of the fixed six-field
checklist —, data completeness, schema coverage) each lie in [0, 1], and
the overall quality score is their arithmetic mean rounded to two
decimals. -/
theorem C6_quality_score_bounds (metadata : MetaDoc) (df : DataFrame)
    (mapping : List (String × String)) (hwf : WellFormed df) :
    let qm := calculate_quality_metrics metadata (calculate_completeness df)
      (calculate_schema_coverage df mapping)
    (0 ≤ qm.metadata_completeness ∧ qm.metadata_completeness ≤ 1) ∧
    (0 ≤ qm.data_completeness ∧ qm.data_completeness ≤ 1) ∧
    (0 ≤ qm.schema_coverage ∧ qm.schema_coverage ≤ 1) ∧
    qm.quality_score =
      pyRound2 ((qm.metadata_completeness + qm.data_completeness + qm.schema_coverage) / 3) := by
  intro qm
  have hfilled : (required_fields.countP
      (fun rf => truthyField (metaGet metadata rf.1 rf.2))) ≤ 6 := by
    have h := List.countP_le_length
      (l := required_fields) (p := fun rf => truthyField (metaGet metadata rf.1 rf.2))
    simpa using h
  have hmc0 : (0 : ℚ) ≤ ((required_fields.countP
      (fun rf => truthyField (metaGet metadata rf.1 rf.2)) : ℚ) / (required_fields.length : ℚ)) := by
    positivity
  have hmc1 : ((required_fields.countP
      (fun rf => truthyField (metaGet metadata rf.1 rf.2)) : ℚ) / (required_fields.length : ℚ)) ≤ 1 := by
    have hlen : ((required_fields.length : ℚ)) = 6 := by norm_num [required_fields]
    rw [hlen, div_le_one (by norm_num)]
    exact_mod_cast hfilled
  refine ⟨⟨pyRound2_nonneg _ hmc0, pyRound2_le_one _ hmc1⟩,
    calculate_completeness_bounds df hwf,
    calculate_schema_coverage_bounds df mapping, rfl⟩

/-- Witness for C6 at a concrete record, frame and mapping. -/
theorem C6_quality_score_bounds_witness :
    0 ≤ (calculate_quality_metrics [("catalog_info", [("title", "T")])]
        (calculate_completeness [("a", [Cell.num 1, Cell.null])])
        (calculate_schema_coverage [("a", [Cell.num 1, Cell.null])] [("a", "a")])).metadata_completeness ∧
      (calculate_quality_metrics [("catalog_info", [("title", "T")])]
        (calculate_completeness [("a", [Cell.num 1, Cell.null])])
        (calculate_schema_coverage [("a", [Cell.num 1, Cell.null])] [("a", "a")])).metadata_completeness ≤ 1 :=
  (C6_quality_score_bounds [("catalog_info", [("title", "T")])]
    [("a", [Cell.num 1, Cell.null])] [("a", "a")] (by decide)).1

/-! ## Claim C3 -/

/-- C3 counterexample: the claim's window is inclusive ("within
1900–2030"), but the code filters `> 1900 & < 2030`; on a year column
`[1900, 2025]` the code reports "2025" while the claimed window keeps 1900
and would report "1900-2025". -/
theorem C3_counterexample :
    (get_temporal_range [("year", [Cell.num 1900, Cell.num 2025])]).range_str = "2025" ∧
    (get_temporal_range_claimed [("year", [Cell.num 1900, Cell.num 2025])]).range_str =
      "1900-2025" ∧
    ("2025" : String) ≠ "1900-2025" := by
  refine ⟨?_, ?_, ?_⟩ <;> decide

/-- C3 amended: the temporal range scans columns whose name contains a
year token and keeps only numeric values STRICTLY between 1900 and 2030
(1901–2029 for integers); the result is "Unknown" when nothing survives,
else the min/max formatted as a single year or an inclusive range. -/
theorem C3_amended (df : DataFrame) :
    (∀ v ∈ temporal_valid_years df, 1900 < v ∧ v < 2030) ∧
    (temporal_valid_years df = [] → get_temporal_range df = ⟨none, none, "Unknown"⟩) ∧
    (temporal_valid_years df ≠ [] →
      get_temporal_range df =
        ⟨some (pyInt (listMinQ (temporal_valid_years df))),
         some (pyInt (listMaxQ (temporal_valid_years df))),
         if pyInt (listMinQ (temporal_valid_years df)) =
             pyInt (listMaxQ (temporal_valid_years df))
         then toString (pyInt (listMinQ (temporal_valid_years df)))
         else toString (pyInt (listMinQ (temporal_valid_years df))) ++ "-" ++
           toString (pyInt (listMaxQ (temporal_valid_years df)))⟩) := by
  refine ⟨?_, ?_, ?_⟩
  · intro v hv
    unfold temporal_valid_years at hv
    rw [List.mem_flatMap] at hv
    obtain ⟨c, _, hc⟩ := hv
    have h := List.of_mem_filter hc
    simpa using h
  · intro h
    unfold get_temporal_range
    rw [if_pos h]
  · intro h
    unfold get_temporal_range
    rw [if_neg h]

/-- Witness for C3 at Scenario C's column `[1899, 2023, 2045]`: the range
is "2023" only, and 2023 is strictly inside the window. -/
theorem C3_amended_witness :
    get_temporal_range [("year", [Cell.num 1899, Cell.num 2023, Cell.num 2045])] =
      ⟨some 2023, some 2023, "2023"⟩ ∧
    (1900 < (2023 : ℚ) ∧ (2023 : ℚ) < 2030) := by
  constructor
  · have h := (C3_amended [("year", [Cell.num 1899, Cell.num 2023, Cell.num 2045])]).2.2
      (by decide)
    rw [h]
    decide
  · exact (C3_amended [("year", [Cell.num 1899, Cell.num 2023, Cell.num 2045])]).1
      2023 (by decide)

/-! ## Claim C7 -/

/-- C7 counterexample: in an integer-typed column holding `["2.5", "abc"]`
the coerced series contains the non-integral 2.5, `astype('Int64')`
raises, the `except: pass` keeps the whole column raw — so the
unparseable "abc" does NOT become a missing value. -/
theorem C7_counterexample :
    (transform ⟨[("v", ["v"])], [("v", "integer")]⟩
        [("v", [Cell.txt "2.5", Cell.txt "abc"])]).1 =
      [("v", [Cell.txt "2.5", Cell.txt "abc"])] ∧
    to_numeric_cell (Cell.txt "abc") = none ∧
    Cell.txt "abc" ≠ Cell.null := by
  refine ⟨?_, ?_, ?_⟩ <;> decide

/-- C7 amended: float coercion is per-value total (unparseable cells
become missing, nothing raises); integer coercion behaves that way
whenever every parseable value in the column is integral, and otherwise
the internal `astype('Int64')` failure is caught and the whole column is
left unchanged — the file is still never aborted. -/
theorem C7_amended (vs : List Cell) :
    (convert_column "float" vs =
      vs.map (fun c => match to_numeric_cell c with
        | none => Cell.null | some q => Cell.num q)) ∧
    ((vs.map to_numeric_cell).all
        (fun o => match o with | none => true | some q => q.den = 1) = true →
      convert_column "integer" vs =
        vs.map (fun c => match to_numeric_cell c with
          | none => Cell.null | some q => Cell.num q)) ∧
    (¬ (vs.map to_numeric_cell).all
        (fun o => match o with | none => true | some q => q.den = 1) = true →
      convert_column "integer" vs = vs) := by
  refine ⟨?_, ?_, ?_⟩
  · rfl
  · intro h
    unfold convert_column
    rw [if_pos rfl, if_pos h, List.map_map]
    rfl
  · intro h
    unfold convert_column
    rw [if_pos rfl, if_neg h]

/-- Witness for C7: a parseable and an unparseable value under integer
coercion. -/
theorem C7_amended_witness :
    convert_column "integer" [Cell.txt "7", Cell.txt "x"] = [Cell.num 7, Cell.null] := by
  have h := (C7_amended [Cell.txt "7", Cell.txt "x"]).2.1 (by decide)
  rw [h]
  decide

/-! ## Claim C2 -/

theorem find_scan_eq (oc ol on_ : String) (ms : List (String × List String)) :
    ∀ (best : Option String) (score : ℤ) (l0 : Option String),
    find_scan oc ol on_ ms best score l0 =
      match ms.find? (exact_or_ci oc ol) with
      | some e => ScanState.ret e.1
      | none =>
        ScanState.fell
          (ms.foldl (fun acc e => fuzz_scan_variants on_ e.1 e.2 acc) (best, score)).1
          (ms.foldl (fun acc e => fuzz_scan_variants on_ e.1 e.2 acc) (best, score)).2
          (match ms.getLast? with
           | some e => some e.1
           | none => l0) := by
  induction ms with
  | nil =>
    intro best score l0
    simp [find_scan]
  | cons e rest ih =>
    intro best score l0
    obtain ⟨std, vars⟩ := e
    show (if oc ∈ vars then ScanState.ret std
      else if ol ∈ vars.map pyLower then ScanState.ret std
      else find_scan oc ol on_ rest
        (fuzz_scan_variants on_ std vars (best, score)).1
        (fuzz_scan_variants on_ std vars (best, score)).2 (some std)) = _
    by_cases h1 : oc ∈ vars
    · have hp : exact_or_ci oc ol (std, vars) = true := by
        simp [exact_or_ci, h1]
      rw [if_pos h1, List.find?_cons_of_pos _ hp]
    · by_cases h2 : ol ∈ vars.map pyLower
      · have hp : exact_or_ci oc ol (std, vars) = true := by
          simp [exact_or_ci, h2]
        rw [if_neg h1, if_pos h2, List.find?_cons_of_pos _ hp]
      · have hp : ¬ exact_or_ci oc ol (std, vars) = true := by
          simp [exact_or_ci, h1, h2]
        rw [if_neg h1, if_neg h2, List.find?_cons_of_neg _ hp,
          ih (fuzz_scan_variants on_ std vars (best, score)).1
            (fuzz_scan_variants on_ std vars (best, score)).2 (some std)]
        have hfold : rest.foldl (fun acc e => fuzz_scan_variants on_ e.1 e.2 acc)
            ((fuzz_scan_variants on_ std vars (best, score)).1,
             (fuzz_scan_variants on_ std vars (best, score)).2) =
            ((std, vars) :: rest).foldl (fun acc e => fuzz_scan_variants on_ e.1 e.2 acc)
              (best, score) := by
          rw [List.foldl_cons]
        rw [hfold]
        cases rest with
        | nil => rfl
        | cons r rs =>
          rw [List.getLast?_cons_cons]
          cases hgl : (r :: rs).getLast? with
          | none => simp at hgl
          | some x => simp only [hgl]

/-- C2 amended: the matcher applies the exact and case-insensitive layers
PER STANDARD COLUMN in schema order (so a case-insensitive hit on an
earlier column beats an exact hit on a later one), then fuzzy scoring over
all variants accepted at ≥ 85, and finally — the stale loop variable — it
compares the raw name against the LAST schema entry's display name (not
the candidate's) and returns the candidate when that scores ≥ 85. -/
theorem C2_matcher_amended (schema : UnifiedSchema) (col : String) :
    find_best_match schema col = find_best_match_amended schema col := by
  simp only [find_best_match, find_best_match_amended]
  rw [find_scan_eq]
  cases hf : schema.column_mappings.find? (exact_or_ci col (pyStrip (pyLower col))) with
  | some e => rfl
  | none =>
    simp only [hf, fuzzy_best]
    generalize schema.column_mappings.foldl
      (fun acc e => fuzz_scan_variants (normalize_string col) e.1 e.2 acc)
      ((none : Option String), (0 : ℤ)) = bs
    obtain ⟨b?, sc⟩ := bs
    by_cases h85 : (85 : ℤ) ≤ sc
    · cases b? <;> simp [h85]
    · cases b? with
      | none =>
        cases schema.column_mappings.getLast? <;> simp [h85]
      | some b =>
        cases hl : schema.column_mappings.getLast? with
        | none => simp [h85]
        | some last => simp [h85]

/-- C2 counterexample: with schema `{"a": ["FOO"], "b": ["foo"]}` the raw
name "foo" has an exact variant match on "b", so the claimed layer-major
matcher returns "b"; the code scans column-by-column and the
case-insensitive hit on "a" wins. -/
theorem C2_counterexample :
    find_best_match ⟨[("a", ["FOO"]), ("b", ["foo"])], []⟩ "foo" = some "a" ∧
    find_best_match_claimed ⟨[("a", ["FOO"]), ("b", ["foo"])], []⟩ "foo" = some "b" ∧
    (some "a" : Option String) ≠ some "b" := by
  refine ⟨?_, ?_, ?_⟩ <;> decide

/-! ## Transformer structure lemmas -/

theorem contains_eq_mem (l : List String) (a : String) : l.contains a = true ↔ a ∈ l :=
  List.elem_iff

theorem fuzz_scan_variants_fst (on_ std : String) (vars : List String) :
    ∀ acc : Option String × ℤ,
    (fuzz_scan_variants on_ std vars acc).1 = some std ∨
      (fuzz_scan_variants on_ std vars acc).1 = acc.1 := by
  induction vars with
  | nil => exact fun _ => Or.inr rfl
  | cons v vs ih =>
    intro acc
    have hstep : fuzz_scan_variants on_ std (v :: vs) acc =
        fuzz_scan_variants on_ std vs
          (if acc.2 < fuzz_score on_ (normalize_string v)
           then (some std, fuzz_score on_ (normalize_string v)) else acc) := rfl
    rw [hstep]
    by_cases h : acc.2 < fuzz_score on_ (normalize_string v)
    · rw [if_pos h]
      rcases ih (some std, fuzz_score on_ (normalize_string v)) with h1 | h1
      · exact Or.inl h1
      · exact Or.inl h1
    · rw [if_neg h]
      exact ih acc

theorem find_scan_ret_mem (oc ol on_ : String) (ms : List (String × List String)) :
    ∀ (best : Option String) (score : ℤ) (l0 : Option String) (std : String),
    find_scan oc ol on_ ms best score l0 = .ret std → ∃ e ∈ ms, e.1 = std := by
  induction ms with
  | nil =>
    intro best score l0 std h
    simp [find_scan] at h
  | cons e rest ih =>
    intro best score l0 std h
    obtain ⟨s, vars⟩ := e
    rw [show find_scan oc ol on_ ((s, vars) :: rest) best score l0 =
        (if oc ∈ vars then ScanState.ret s
         else if ol ∈ vars.map pyLower then ScanState.ret s
         else find_scan oc ol on_ rest
           (fuzz_scan_variants on_ s vars (best, score)).1
           (fuzz_scan_variants on_ s vars (best, score)).2 (some s)) from rfl] at h
    by_cases h1 : oc ∈ vars
    · rw [if_pos h1] at h
      injection h with h2
      exact ⟨(s, vars), List.mem_cons_self _ _, h2⟩
    · rw [if_neg h1] at h
      by_cases h2 : ol ∈ vars.map pyLower
      · rw [if_pos h2] at h
        injection h with h3
        exact ⟨(s, vars), List.mem_cons_self _ _, h3⟩
      · rw [if_neg h2] at h
        obtain ⟨e, he, h4⟩ := ih _ _ _ _ h
        exact ⟨e, List.mem_cons_of_mem _ he, h4⟩

theorem find_scan_fell_best (oc ol on_ : String) (ms : List (String × List String)) :
    ∀ (best : Option String) (score : ℤ) (l0 : Option String) (b : String) (sc : ℤ)
      (l : Option String),
    find_scan oc ol on_ ms best score l0 = .fell (some b) sc l →
    some b = best ∨ ∃ e ∈ ms, e.1 = b := by
  induction ms with
  | nil =>
    intro best score l0 b sc l h
    simp [find_scan] at h
    exact Or.inl h.1.symm
  | cons e rest ih =>
    intro best score l0 b sc l h
    obtain ⟨s, vars⟩ := e
    rw [show find_scan oc ol on_ ((s, vars) :: rest) best score l0 =
        (if oc ∈ vars then ScanState.ret s
         else if ol ∈ vars.map pyLower then ScanState.ret s
         else find_scan oc ol on_ rest
           (fuzz_scan_variants on_ s vars (best, score)).1
           (fuzz_scan_variants on_ s vars (best, score)).2 (some s)) from rfl] at h
    by_cases h1 : oc ∈ vars
    · rw [if_pos h1] at h
      simp at h
    · rw [if_neg h1] at h
      by_cases h2 : ol ∈ vars.map pyLower
      · rw [if_pos h2] at h
        simp at h
      · rw [if_neg h2] at h
        rcases ih _ _ _ _ _ _ h with h3 | h3
        · rcases fuzz_scan_variants_fst on_ s vars (best, score) with h4 | h4
          · rw [h4] at h3
            injection h3 with h5
            exact Or.inr ⟨(s, vars), List.mem_cons_self _ _, h5.symm⟩
          · rw [h4] at h3
            exact Or.inl h3
        · obtain ⟨e, he, h4⟩ := h3
          exact Or.inr ⟨e, List.mem_cons_of_mem _ he, h4⟩

theorem matcher_mem (schema : UnifiedSchema) (n s : String)
    (h : find_best_match schema n = some s) :
    s ∈ schema.column_mappings.map Prod.fst := by
  simp only [find_best_match] at h
  cases hs : find_scan n (pyStrip (pyLower n)) (normalize_string n)
      schema.column_mappings none 0 none with
  | ret std =>
    rw [hs] at h
    injection h with h2
    obtain ⟨e, he, h3⟩ := find_scan_ret_mem _ _ _ _ _ _ _ _ hs
    rw [← h2, ← h3]
    exact List.mem_map_of_mem Prod.fst he
  | fell best score lastStd =>
    rw [hs] at h
    dsimp only at h
    have hbest : best = some s := by
      by_cases h85 : (85 : ℤ) ≤ score
      · rw [if_pos h85] at h
        exact h
      · rw [if_neg h85] at h
        cases best with
        | none => cases lastStd <;> simp at h
        | some b =>
          cases lastStd with
          | none => simp at h
          | some l =>
            simp only at h
            by_cases hsn : normalize_string l ≠ ""
            · rw [if_pos hsn] at h
              by_cases hs85 : (85 : ℤ) ≤ fuzz_score (normalize_string n) (normalize_string l)
              · rw [if_pos hs85] at h
                exact h
              · rw [if_neg hs85] at h
                simp at h
            · rw [if_neg hsn] at h
              simp at h
    rw [hbest] at hs
    rcases find_scan_fell_best _ _ _ _ _ _ _ _ _ _ hs with h2 | h2
    · simp at h2
    · obtain ⟨e, he, h3⟩ := h2
      rw [← h3]
      exact List.mem_map_of_mem Prod.fst he

theorem lookup_mem {β : Type} (k : String) (v : β) (l : List (String × β))
    (h : List.lookup k l = some v) : (k, v) ∈ l := by
  induction l with
  | nil => simp [List.lookup] at h
  | cons e rest ih =>
    obtain ⟨a, b⟩ := e
    rw [List.lookup_cons] at h
    by_cases hk : k = a
    · subst hk
      simp at h
      rw [h]
      exact List.mem_cons_self _ _
    · have hne : (k == a) = false := by simp [hk]
      rw [hne] at h
      exact List.mem_cons_of_mem _ (ih h)

theorem lookup_none {β : Type} (k : String) (l : List (String × β))
    (h : ∀ p ∈ l, p.1 ≠ k) : List.lookup k l = none := by
  induction l with
  | nil => rfl
  | cons e rest ih =>
    obtain ⟨a, b⟩ := e
    rw [List.lookup_cons]
    have hne : (k == a) = false := by
      simp
      intro he
      exact absurd rfl (he ▸ h (a, b) (List.mem_cons_self _ _))
    rw [hne]
    exact ih (fun p hp => h p (List.mem_cons_of_mem _ hp))

theorem build_mem (schema : UnifiedSchema) (names : List String) (k v : String)
    (h : (k, v) ∈ build_file_mapping schema names) :
    find_best_match schema k = some v ∧ k ∈ names := by
  unfold build_file_mapping at h
  rw [List.mem_filterMap] at h
  obtain ⟨n, hn, h2⟩ := h
  cases hm : find_best_match schema n with
  | none => rw [hm] at h2; simp at h2
  | some s =>
    rw [hm] at h2
    simp at h2
    obtain ⟨h3, h4⟩ := h2
    rw [← h3, ← h4]
    exact ⟨hm, hn⟩

theorem lookup_build (schema : UnifiedSchema) (names : List String) (n : String)
    (hn : n ∈ names) :
    List.lookup n (build_file_mapping schema names) = find_best_match schema n := by
  induction names with
  | nil => cases hn
  | cons m rest ih =>
    unfold build_file_mapping
    cases hm : find_best_match schema m with
    | some s =>
      rw [List.filterMap_cons_some (by rw [hm]; rfl)]
      rw [List.lookup_cons]
      by_cases hmn : n = m
      · subst hmn
        rw [show (n == n) = true from beq_self_eq_true n]
        exact hm.symm
      · have hne : (n == m) = false := by simp [hmn]
        rw [hne]
        have hn' : n ∈ rest := by
          rcases List.mem_cons.mp hn with h | h
          · exact absurd h hmn
          · exact h
        exact ih hn'
    | none =>
      rw [List.filterMap_cons_none (by rw [hm]; rfl)]
      by_cases hmn : n = m
      · subst hmn
        rw [hm]
        by_cases hr : n ∈ rest
        · have hb := ih hr
          rw [hm] at hb
          exact hb
        · exact lookup_none n (build_file_mapping schema rest)
            (fun p hp heq => hr (heq ▸ (build_mem schema rest p.1 p.2 hp).2))
      · have hn' : n ∈ rest := by
          rcases List.mem_cons.mp hn with h | h
          · exact absurd h hmn
          · exact h
        exact ih hn'

theorem mem_rename (schema : UnifiedSchema) (df : DataFrame) (c' : String × List Cell)
    (h : c' ∈ rename_columns (build_file_mapping schema (df.map Prod.fst)) df) :
    ∃ c0 ∈ df, c' = (match find_best_match schema c0.1 with
      | some s => s
      | none => c0.1, c0.2) := by
  unfold rename_columns at h
  rw [List.mem_map] at h
  obtain ⟨c0, hc0, h2⟩ := h
  refine ⟨c0, hc0, ?_⟩
  rw [← h2]
  unfold renameStep
  rw [lookup_build schema _ c0.1 (List.mem_map_of_mem _ hc0)]
  cases find_best_match schema c0.1 <;> rfl

theorem rename_names (schema : UnifiedSchema) (df : DataFrame) :
    (rename_columns (build_file_mapping schema (df.map Prod.fst)) df).map Prod.fst =
      df.map (fun c => match find_best_match schema c.1 with
        | some s => s
        | none => c.1) := by
  unfold rename_columns
  rw [List.map_map]
  apply List.map_congr_left
  intro c hc
  simp only [Function.comp]
  unfold renameStep
  rw [lookup_build schema _ c.1 (List.mem_map_of_mem _ hc)]
  cases find_best_match schema c.1 <;> rfl

theorem convert_names (schema : UnifiedSchema) (t : DataFrame) :
    (convert_types schema t).map Prod.fst = t.map Prod.fst := by
  unfold convert_types
  rw [List.map_map]
  apply List.map_congr_left
  intro c _
  simp only [Function.comp]
  unfold convertStep
  cases List.lookup c.1 schema.column_types with
  | none => rfl
  | some t' =>
    dsimp only
    split_ifs <;> rfl

theorem mem_convert_types (schema : UnifiedSchema) (t : DataFrame)
    (c : String × List Cell) (hc : c ∈ convert_types schema t) :
    ∃ c' ∈ t, c.1 = c'.1 := by
  unfold convert_types at hc
  rw [List.mem_map] at hc
  obtain ⟨c', hc', h2⟩ := hc
  refine ⟨c', hc', ?_⟩
  rw [← h2]
  unfold convertStep
  cases List.lookup c'.1 schema.column_types with
  | none => rfl
  | some t' =>
    dsimp only
    split_ifs <;> rfl

theorem mem_reorder (schema : UnifiedSchema) (t : DataFrame) (c : String × List Cell)
    (hc : c ∈ reorder_columns schema t) : c ∈ t := by
  unfold reorder_columns at hc
  rw [List.mem_flatMap] at hc
  obtain ⟨k, _, h2⟩ := hc
  exact List.mem_of_mem_filter h2

theorem my_length_flatMap {α β : Type} (l : List α) (f : α → List β) :
    (l.flatMap f).length = (l.map (fun a => (f a).length)).sum := by
  induction l with
  | nil => rfl
  | cons a t ih =>
    rw [List.flatMap_cons, List.length_append, ih, List.map_cons, List.sum_cons]

theorem sum_map_add_nat {α : Type} (l : List α) (f g : α → ℕ) :
    (l.map fun x => f x + g x).sum = (l.map f).sum + (l.map g).sum := by
  induction l with
  | nil => rfl
  | cons a t ih =>
    simp only [List.map_cons, List.sum_cons, ih]
    omega

theorem sum_map_ite_one (x : String) (sel : List String) (hnd : sel.Nodup) (hx : x ∈ sel) :
    (sel.map (fun k => if x = k then 1 else 0)).sum = 1 := by
  induction sel with
  | nil => cases hx
  | cons a t ih =>
    rw [List.map_cons, List.sum_cons]
    rcases List.mem_cons.mp hx with h | h
    · subst h
      rw [if_pos rfl]
      have hz : (t.map fun k => if x = k then 1 else 0).sum = 0 := by
        apply List.sum_eq_zero
        intro y hy
        rw [List.mem_map] at hy
        obtain ⟨k, hk, h2⟩ := hy
        rw [← h2, if_neg]
        intro he
        exact (List.nodup_cons.mp hnd).1 (he ▸ hk)
      rw [hz]
    · have hax : x ≠ a := by
        intro he
        exact (List.nodup_cons.mp hnd).1 (he ▸ h)
      rw [if_neg hax, ih (List.nodup_cons.mp hnd).2 h]

theorem flatMap_filter_length (sel : List String) (t : DataFrame)
    (hsel : sel.Nodup) (hcov : ∀ c ∈ t, c.1 ∈ sel) :
    (sel.flatMap (fun k => t.filter (fun c => c.1 = k))).length = t.length := by
  induction t with
  | nil =>
    rw [my_length_flatMap]
    apply List.sum_eq_zero
    intro y hy
    rw [List.mem_map] at hy
    obtain ⟨k, _, h2⟩ := hy
    simp [← h2]
  | cons c t ih =>
    rw [my_length_flatMap]
    have hsplit : ∀ k, (((c :: t) : DataFrame).filter (fun x => x.1 = k)).length =
        (if c.1 = k then 1 else 0) + (t.filter (fun x => x.1 = k)).length := by
      intro k
      by_cases h : c.1 = k
      · simp [List.filter_cons, h]
        omega
      · simp [List.filter_cons, h]
    rw [List.map_congr_left (fun k _ => hsplit k), sum_map_add_nat,
      sum_map_ite_one c.1 sel hsel (hcov c (List.mem_cons_self _ _)),
      ← my_length_flatMap, ih (fun x hx => hcov x (List.mem_cons_of_mem _ hx)),
      List.length_cons]
    omega

theorem sel_covers (keys names : List String) (n : String) (hn : n ∈ names) :
    n ∈ (keys.filter (fun k => names.contains k)) ++
      (names.filter (fun m => !((keys.filter (fun k => names.contains k)).contains m))) := by
  by_cases h : n ∈ keys.filter (fun k => names.contains k)
  · exact List.mem_append_left _ h
  · apply List.mem_append_right
    apply List.mem_filter.mpr
    refine ⟨hn, ?_⟩
    rw [Bool.not_eq_true']
    rw [← Bool.not_eq_true]
    intro hc
    exact h ((contains_eq_mem _ n).mp hc)

theorem names_filter_not_ordered_nodup (schema : UnifiedSchema) (df : DataFrame)
    (hnd : (df.map Prod.fst).Nodup) (ordered : List String)
    (hord : ∀ s, s ∈ schema.column_mappings.map Prod.fst →
      s ∈ df.map (renamedName schema) → s ∈ ordered) :
    ((df.map (renamedName schema)).filter (fun n => !(ordered.contains n))).Nodup := by
  rw [List.filter_map]
  have hid : ∀ c ∈ df.filter ((fun n => !(ordered.contains n)) ∘ renamedName schema),
      renamedName schema c = c.1 := by
    intro c hc
    have hp := List.of_mem_filter hc
    have hcm := List.mem_of_mem_filter hc
    simp only [Function.comp] at hp
    unfold renamedName
    cases hm : find_best_match schema c.1 with
    | none => rfl
    | some s =>
      exfalso
      have hs : s ∈ ordered := by
        apply hord s (matcher_mem _ _ _ hm)
        have : renamedName schema c = s := by unfold renamedName; rw [hm]
        exact this ▸ List.mem_map_of_mem (renamedName schema) hcm
      have : renamedName schema c = s := by unfold renamedName; rw [hm]
      rw [this] at hp
      rw [Bool.not_eq_true'] at hp
      exact absurd ((contains_eq_mem _ _).mpr hs) (by rw [hp]; exact Bool.false_ne_true)
  rw [List.map_congr_left hid]
  have hsub : (df.filter ((fun n => !(ordered.contains n)) ∘ renamedName schema)).map Prod.fst
      |>.Sublist (df.map Prod.fst) :=
    List.Sublist.map Prod.fst (List.filter_sublist df)
  exact List.Nodup.sublist hsub hnd

/-! ## Claim C4 -/

/-- C4 counterexample: the transformer has no sentinel handling — with a
schema whose only standard column is the sentinel "DROP" mapping the raw
name "sr_no", the raw column is renamed to "DROP" and retained, not
dropped. -/
theorem C4_counterexample :
    (transform ⟨[("DROP", ["sr_no"])], []⟩ [("sr_no", [Cell.txt "1"])]).1 =
      [("DROP", [Cell.txt "1"])] ∧
    ([("DROP", [Cell.txt "1"])] : DataFrame) ≠ [] := by
  refine ⟨?_, ?_⟩ <;> decide

/-- C4 amended: the transformer drops nothing: every output column name is
either a standard column of the schema or an original (unmapped) column
name, and — for a frame with distinct column names and a schema with
distinct keys — the output has exactly as many columns as the input. -/
theorem C4_amended (schema : UnifiedSchema) (df : DataFrame)
    (hnd : (df.map Prod.fst).Nodup)
    (hk : (schema.column_mappings.map Prod.fst).Nodup) :
    (∀ c ∈ (transform schema df).1,
      c.1 ∈ schema.column_mappings.map Prod.fst ∨ c.1 ∈ df.map Prod.fst) ∧
    (transform schema df).1.length = df.length := by
  constructor
  · intro c hc
    have hc2 := mem_reorder _ _ _ hc
    obtain ⟨c', hc', he⟩ := mem_convert_types _ _ _ hc2
    obtain ⟨c0, hc0, he2⟩ := mem_rename _ _ _ hc'
    rw [he, he2]
    cases hm : find_best_match schema c0.1 with
    | some s => exact Or.inl (matcher_mem _ _ _ hm)
    | none => exact Or.inr (List.mem_map_of_mem _ hc0)
  · show (reorder_columns schema
      (convert_types schema
        (rename_columns (build_file_mapping schema (df.map Prod.fst)) df))).length = df.length
    have hnames : (convert_types schema
        (rename_columns (build_file_mapping schema (df.map Prod.fst)) df)).map Prod.fst =
        df.map (renamedName schema) := by
      rw [convert_names, rename_names]
      rfl
    generalize ht : convert_types schema
      (rename_columns (build_file_mapping schema (df.map Prod.fst)) df) = t at hnames ⊢
    show ((((schema.column_mappings.map Prod.fst).filter
        (fun k => (t.map Prod.fst).contains k)) ++
        ((t.map Prod.fst).filter (fun n => !((((schema.column_mappings.map Prod.fst).filter
          (fun k => (t.map Prod.fst).contains k))).contains n)))).flatMap
        (fun k => t.filter (fun c => c.1 = k))).length = df.length
    have hordn : ((schema.column_mappings.map Prod.fst).filter
        (fun k => (t.map Prod.fst).contains k)).Nodup := List.Nodup.filter _ hk
    have hextn : ((t.map Prod.fst).filter
        (fun n => !((((schema.column_mappings.map Prod.fst).filter
          (fun k => (t.map Prod.fst).contains k))).contains n))).Nodup := by
      rw [hnames]
      apply names_filter_not_ordered_nodup schema df hnd
      intro s hs1 hs2
      exact List.mem_filter.mpr ⟨hs1, (contains_eq_mem _ _).mpr hs2⟩
    have hdisj : ((schema.column_mappings.map Prod.fst).filter
        (fun k => (t.map Prod.fst).contains k)).Disjoint
        ((t.map Prod.fst).filter (fun n => !((((schema.column_mappings.map Prod.fst).filter
          (fun k => (t.map Prod.fst).contains k))).contains n))) := by
      intro a ha1 ha2
      have hp := List.of_mem_filter ha2
      rw [Bool.not_eq_true'] at hp
      exact absurd ((contains_eq_mem _ _).mpr ha1) (by rw [hp]; exact Bool.false_ne_true)
    rw [flatMap_filter_length _ t (List.Nodup.append hordn hextn hdisj)
      (fun c hc => sel_covers (schema.column_mappings.map Prod.fst) (t.map Prod.fst) c.1
        (List.mem_map_of_mem _ hc))]
    have : t.map Prod.fst = df.map (renamedName schema) := hnames
    calc t.length = (t.map Prod.fst).length := (List.length_map _ _).symm
      _ = (df.map (renamedName schema)).length := by rw [hnames]
      _ = df.length := List.length_map _ _

/-- Witness for C4 at a concrete schema and frame. -/
theorem C4_amended_witness :
    (transform ⟨[("a", ["x"])], []⟩ [("x", [Cell.num 1])]).1.length = 1 :=
  (C4_amended ⟨[("a", ["x"])], []⟩ [("x", [Cell.num 1])] (by decide) (by decide)).2

/-! ## Claim C9 -/

theorem flatMap_congr_mem {α β : Type} (l : List α) (f g : α → List β)
    (h : ∀ a ∈ l, f a = g a) : l.flatMap f = l.flatMap g := by
  induction l with
  | nil => rfl
  | cons a t ih =>
    rw [List.flatMap_cons, List.flatMap_cons, h a (List.mem_cons_self _ _),
      ih (fun x hx => h x (List.mem_cons_of_mem _ hx))]

theorem filter_name_eq_nil (U : DataFrame) (n : String) (h : n ∉ U.map Prod.fst) :
    U.filter (fun c => c.1 = n) = [] := by
  induction U with
  | nil => rfl
  | cons c t ih =>
    rw [List.filter_cons, if_neg, ih]
    · intro hc
      exact h (List.mem_cons_of_mem _ hc)
    · simp only [decide_eq_true_eq]
      intro he
      exact h (he ▸ List.mem_map_of_mem Prod.fst (List.mem_cons_self c t))

theorem flatMap_filter_self (U : DataFrame) (hU : (U.map Prod.fst).Nodup) :
    (U.map Prod.fst).flatMap (fun k => U.filter (fun c => c.1 = k)) = U := by
  induction U with
  | nil => rfl
  | cons c t ih =>
    rw [List.map_cons, List.flatMap_cons]
    have hcn : c.1 ∉ t.map Prod.fst := (List.nodup_cons.mp hU).1
    have h1 : List.filter (fun x => x.1 = c.1) (c :: t) = [c] := by
      rw [List.filter_cons, if_pos (by simp), filter_name_eq_nil t c.1 hcn]
    have h2 : (t.map Prod.fst).flatMap (fun k => List.filter (fun x => x.1 = k) (c :: t)) =
        (t.map Prod.fst).flatMap (fun k => t.filter (fun x => x.1 = k)) := by
      apply flatMap_congr_mem
      intro k hk
      rw [List.filter_cons, if_neg]
      simp only [decide_eq_true_eq]
      intro he
      exact hcn (he ▸ hk)
    rw [h1, h2, ih (List.nodup_cons.mp hU).2]
    rfl

theorem convertStep_fst (schema : UnifiedSchema) (df : DataFrame) (c : String × List Cell) :
    (convertStep schema df c).1 = c.1 := by
  unfold convertStep
  cases List.lookup c.1 schema.column_types with
  | none => rfl
  | some t =>
    dsimp only
    split_ifs <;> rfl

/-- C9 counterexample: with schema `{"year": ["Data Year"], "state":
["st"]}` typed `{"year": integer}`, the raw column "year" matches nothing
(best fuzzy score 67 < 85 and strategy 4 scores 22 < 85), yet it is
type-coerced ("n/a" becomes missing) because its name collides with the
type table, and it is placed BEFORE the standard column "state" because
its name collides with a standard-column name. -/
theorem C9_counterexample :
    find_best_match ⟨[("year", ["Data Year"]), ("state", ["st"])], [("year", "integer")]⟩
      "year" = none ∧
    (transform ⟨[("year", ["Data Year"]), ("state", ["st"])], [("year", "integer")]⟩
        [("st", [Cell.txt "x"]), ("year", [Cell.txt "n/a"])]).1 =
      [("year", [Cell.null]), ("state", [Cell.txt "x"])] ∧
    Cell.null ≠ Cell.txt "n/a" := by
  refine ⟨?_, ?_, ?_⟩ <;> decide

/-- C9 amended: when every unmapped column's name collides with neither
the schema's standard-column names nor its type table, and the frame's
column names are distinct, the transformer's output is a block of
standard-named columns followed by EXACTLY the unmapped columns —
original names, original values, original relative order. -/
theorem C9_amended (schema : UnifiedSchema) (df : DataFrame)
    (hnd : (df.map Prod.fst).Nodup)
    (hcol : ∀ c ∈ df, find_best_match schema c.1 = none →
      c.1 ∉ schema.column_mappings.map Prod.fst ∧ c.1 ∉ schema.column_types.map Prod.fst) :
    ∃ pre, (transform schema df).1 =
        pre ++ df.filter (fun c => (find_best_match schema c.1).isNone) ∧
      ∀ e ∈ pre, e.1 ∈ schema.column_mappings.map Prod.fst := by
  have ht : convert_types schema
      (rename_columns (build_file_mapping schema (df.map Prod.fst)) df) =
      df.map (fun c =>
        convertStep schema (rename_columns (build_file_mapping schema (df.map Prod.fst)) df)
          (renameStep (build_file_mapping schema (df.map Prod.fst)) c)) := by
    unfold convert_types rename_columns
    rw [List.map_map]
    rfl
  set G := fun c =>
    convertStep schema (rename_columns (build_file_mapping schema (df.map Prod.fst)) df)
      (renameStep (build_file_mapping schema (df.map Prod.fst)) c) with hG
  set t := convert_types schema
    (rename_columns (build_file_mapping schema (df.map Prod.fst)) df) with htdef
  set U := df.filter (fun c => (find_best_match schema c.1).isNone) with hUdef
  have hGfst : ∀ c ∈ df, (G c).1 = renamedName schema c := by
    intro c hc
    rw [hG]
    dsimp only
    rw [convertStep_fst]
    unfold renameStep renamedName
    rw [lookup_build schema _ c.1 (List.mem_map_of_mem _ hc)]
    cases find_best_match schema c.1 <;> rfl
  have hGid : ∀ c ∈ df, find_best_match schema c.1 = none → G c = c := by
    intro c hc hm
    rw [hG]
    dsimp only
    have hr : renameStep (build_file_mapping schema (df.map Prod.fst)) c = c := by
      unfold renameStep
      rw [lookup_build schema _ c.1 (List.mem_map_of_mem _ hc), hm]
    rw [hr]
    unfold convertStep
    rw [lookup_none _ _ (fun p hp he =>
      (hcol c hc hm).2 (by rw [← he]; exact List.mem_map_of_mem Prod.fst hp))]
  have hnames : t.map Prod.fst = df.map (renamedName schema) := by
    rw [ht, List.map_map]
    apply List.map_congr_left
    intro c hc
    exact hGfst c hc
  set ordered := (schema.column_mappings.map Prod.fst).filter
    (fun k => (t.map Prod.fst).contains k) with hord
  set extra := (t.map Prod.fst).filter (fun n => !(ordered.contains n)) with hext
  have hsmem : ∀ c ∈ df, ∀ s, find_best_match schema c.1 = some s → s ∈ ordered := by
    intro c hc s hm
    rw [hord]
    apply List.mem_filter.mpr
    refine ⟨matcher_mem _ _ _ hm, ?_⟩
    apply (contains_eq_mem _ _).mpr
    rw [hnames]
    have hrn : renamedName schema c = s := by unfold renamedName; rw [hm]
    exact hrn ▸ List.mem_map_of_mem (renamedName schema) hc
  have hUnone : ∀ c ∈ U, find_best_match schema c.1 = none := by
    intro c hc
    have hm0 := List.of_mem_filter (hUdef ▸ hc)
    exact Option.isNone_iff_eq_none.mp hm0
  have hUnames : ∀ c ∈ U, renamedName schema c = c.1 := by
    intro c hc
    unfold renamedName
    rw [hUnone c hc]
  have hstep1 : extra = U.map Prod.fst := by
    rw [hext, hnames, List.filter_map]
    have hfeq : df.filter ((fun n => !(ordered.contains n)) ∘ renamedName schema) = U := by
      rw [hUdef]
      apply List.filter_congr
      intro c hc
      simp only [Function.comp]
      cases hm : find_best_match schema c.1 with
      | some s =>
        have hrn : renamedName schema c = s := by unfold renamedName; rw [hm]
        rw [hrn]
        have hso : ordered.contains s = true :=
          (contains_eq_mem _ _).mpr (hsmem c hc s hm)
        rw [hso]
        rfl
      | none =>
        have hrn : renamedName schema c = c.1 := by unfold renamedName; rw [hm]
        rw [hrn]
        have hno : ordered.contains c.1 = false := by
          rw [← Bool.not_eq_true]
          intro hcontains
          exact (hcol c hc hm).1
            (List.mem_of_mem_filter (hord ▸ (contains_eq_mem _ _).mp hcontains))
        rw [hno]
        rfl
    rw [hfeq]
    exact List.map_congr_left hUnames
  have hUsub : U ⊆ df := fun c hc => List.mem_of_mem_filter (hUdef ▸ hc)
  have hstep2 : ∀ k ∈ extra, t.filter (fun c => c.1 = k) = U.filter (fun c => c.1 = k) := by
    intro k hk
    have hknot : k ∉ ordered := by
      have hp := List.of_mem_filter (hext ▸ hk)
      rw [Bool.not_eq_true'] at hp
      intro hmem
      exact absurd ((contains_eq_mem _ _).mpr hmem) (by rw [hp]; exact Bool.false_ne_true)
    rw [ht, List.filter_map]
    have hfeq : df.filter ((fun (c : String × List Cell) => decide (c.1 = k)) ∘ G) =
        df.filter (fun c => decide (c.1 = k) && (find_best_match schema c.1).isNone) := by
      apply List.filter_congr
      intro c hc
      simp only [Function.comp]
      cases hm : find_best_match schema c.1 with
      | some s =>
        have hg : (G c).1 = s := by
          rw [hGfst c hc]
          unfold renamedName
          rw [hm]
        rw [hg]
        have hne : s ≠ k := fun he => hknot (he ▸ hsmem c hc s hm)
        simp [hne]
      | none =>
        have hg : (G c).1 = c.1 := by
          rw [hGfst c hc]
          unfold renamedName
          rw [hm]
        rw [hg]
        simp
    rw [hfeq, hUdef, List.filter_filter]
    have hmapid : (df.filter
        (fun c => decide (c.1 = k) && (find_best_match schema c.1).isNone)).map G =
        df.filter (fun c => decide (c.1 = k) && (find_best_match schema c.1).isNone) := by
      have : ∀ c ∈ df.filter
          (fun c => decide (c.1 = k) && (find_best_match schema c.1).isNone), G c = c := by
        intro c hc
        have hcd : c ∈ df := List.mem_of_mem_filter hc
        have hp := List.of_mem_filter hc
        rw [Bool.and_eq_true] at hp
        have hm : find_best_match schema c.1 = none := by
          cases hmm : find_best_match schema c.1 with
          | some s => rw [hmm] at hp; simp at hp
          | none => rfl
        exact hGid c hcd hm
      rw [List.map_congr_left this]
      simp
    rw [hmapid]
  refine ⟨ordered.flatMap (fun k => t.filter (fun c => c.1 = k)), ?_, ?_⟩
  · have htrans : (transform schema df).1 =
        ordered.flatMap (fun k => t.filter (fun c => c.1 = k)) ++
        extra.flatMap (fun k => t.filter (fun c => c.1 = k)) := by
      show reorder_columns schema t = _
      simp only [reorder_columns]
      rw [← hord, ← hext]
      exact List.flatMap_append _ _ _
    rw [htrans]
    congr 1
    rw [flatMap_congr_mem extra _ _ hstep2, hstep1]
    apply flatMap_filter_self
    exact List.Nodup.sublist (List.Sublist.map Prod.fst (List.filter_sublist df)) hnd
  · intro e he
    rw [List.mem_flatMap] at he
    obtain ⟨k, hk, he2⟩ := he
    have hek : e.1 = k := by
      have := List.of_mem_filter he2
      simpa using this
    rw [hek]
    exact List.mem_of_mem_filter (hord ▸ hk)

/-- Witness for C9: one mapped and one collision-free unmapped column. -/
theorem C9_amended_witness :
    (transform ⟨[("state", ["st"])], [("state", "string")]⟩
        [("st", [Cell.num 1]), ("notes", [Cell.txt "k"])]).1 =
      (transform ⟨[("state", ["st"])], [("state", "string")]⟩
          [("st", [Cell.num 1]), ("notes", [Cell.txt "k"])]).1.take 1 ++
        [("notes", [Cell.txt "k"])] := by
  obtain ⟨pre, hp, hmem⟩ := C9_amended ⟨[("state", ["st"])], [("state", "string")]⟩
    [("st", [Cell.num 1]), ("notes", [Cell.txt "k"])] (by decide) (by decide)
  rw [hp]
  have hfilt : ([("st", [Cell.num 1]), ("notes", [Cell.txt "k"])] : DataFrame).filter
      (fun c => (find_best_match ⟨[("state", ["st"])], [("state", "string")]⟩ c.1).isNone) =
      [("notes", [Cell.txt "k"])] := by decide
  rw [hfilt] at hp ⊢
  have hlen : pre.length = 1 := by
    have h2 : (transform ⟨[("state", ["st"])], [("state", "string")]⟩
        [("st", [Cell.num 1]), ("notes", [Cell.txt "k"])]).1.length = 2 := by decide
    rw [hp] at h2
    rw [List.length_append] at h2
    simpa using h2
  rw [List.take_append_of_le_length (by rw [hlen])]
  rw [List.take_of_length_le (by rw [hlen])]

/-! ## Claim C5 -/

theorem auto_fix_fold_inv (mn : String) (keys : List String) :
    ∀ acc : Option String × ℤ,
    acc.2 ≤ (keys.foldl (fun bs std =>
        if bs.2 < fuzz_score mn (removeChar '_' (pyLower std)) then
          (some std, fuzz_score mn (removeChar '_' (pyLower std))) else bs) acc).2 ∧
    (∀ k ∈ keys, fuzz_score mn (removeChar '_' (pyLower k)) ≤
      (keys.foldl (fun bs std =>
        if bs.2 < fuzz_score mn (removeChar '_' (pyLower std)) then
          (some std, fuzz_score mn (removeChar '_' (pyLower std))) else bs) acc).2) ∧
    ((keys.foldl (fun bs std =>
        if bs.2 < fuzz_score mn (removeChar '_' (pyLower std)) then
          (some std, fuzz_score mn (removeChar '_' (pyLower std))) else bs) acc) = acc ∨
      ∃ b ∈ keys, (keys.foldl (fun bs std =>
        if bs.2 < fuzz_score mn (removeChar '_' (pyLower std)) then
          (some std, fuzz_score mn (removeChar '_' (pyLower std))) else bs) acc) =
        (some b, fuzz_score mn (removeChar '_' (pyLower b)))) := by
  induction keys with
  | nil => exact fun acc => ⟨le_refl _, fun k hk => absurd hk (List.not_mem_nil k), Or.inl rfl⟩
  | cons k ks ih =>
    intro acc
    have hstep : (k :: ks).foldl (fun bs std =>
        if bs.2 < fuzz_score mn (removeChar '_' (pyLower std)) then
          (some std, fuzz_score mn (removeChar '_' (pyLower std))) else bs) acc =
        ks.foldl (fun bs std =>
          if bs.2 < fuzz_score mn (removeChar '_' (pyLower std)) then
            (some std, fuzz_score mn (removeChar '_' (pyLower std))) else bs)
          (if acc.2 < fuzz_score mn (removeChar '_' (pyLower k)) then
            (some k, fuzz_score mn (removeChar '_' (pyLower k))) else acc) := rfl
    rw [hstep]
    by_cases h : acc.2 < fuzz_score mn (removeChar '_' (pyLower k))
    · rw [if_pos h]
      obtain ⟨h1, h2, h3⟩ := ih (some k, fuzz_score mn (removeChar '_' (pyLower k)))
      refine ⟨le_trans (le_of_lt h) h1, ?_, ?_⟩
      · intro k' hk'
        rcases List.mem_cons.mp hk' with he | he
        · exact he ▸ h1
        · exact h2 k' he
      · rcases h3 with h4 | h4
        · exact Or.inr ⟨k, List.mem_cons_self _ _, h4⟩
        · obtain ⟨b, hb, h5⟩ := h4
          exact Or.inr ⟨b, List.mem_cons_of_mem _ hb, h5⟩
    · rw [if_neg h]
      obtain ⟨h1, h2, h3⟩ := ih acc
      refine ⟨h1, ?_, ?_⟩
      · intro k' hk'
        rcases List.mem_cons.mp hk' with he | he
        · exact he ▸ le_trans (le_of_not_lt h) h1
        · exact h2 k' he
      · rcases h3 with h4 | h4
        · exact Or.inl h4
        · obtain ⟨b, hb, h5⟩ := h4
          exact Or.inr ⟨b, List.mem_cons_of_mem _ hb, h5⟩

/-- C5 counterexample: the schema has one standard column "num" with
variant "Total_Cattle"; for the missing name "total cattle" the claimed
scorer (names AND normalized variants) scores 100 > 70 and would append,
but the code only scores the standard NAME ("num", score 0) and creates a
brand-new standard column instead. -/
theorem C5_counterexample :
    (auto_fix_missing_columns ⟨[("num", ["Total_Cattle"])], [("num", "string")]⟩
        ["total cattle"]).column_mappings =
      [("num", ["Total_Cattle"]), ("total_cattle", ["total cattle"])] ∧
    auto_fix_best_claimed (lowerNoSep "total cattle") [("num", ["Total_Cattle"])] =
      (some "num", 100) ∧
    auto_fix_best (lowerNoSep "total cattle") ["num"] = (none, 0) := by
  refine ⟨?_, ?_, ?_⟩ <;> decide

/-- C5 amended: repair scores the normalized missing name against every
existing standard column's own (lowercased, underscore-stripped) NAME
only — variants are never consulted; the best-scoring standard column
(ties to the earliest) receives the raw name as a new variant when its
score exceeds 70, and otherwise a brand-new string-typed standard column
holding just the raw name is created; the repairer runs this step left to
right over the unmapped names. -/
theorem C5_amended (schema : UnifiedSchema) (m : String) (missing : List String) :
    (∀ k ∈ schema.column_mappings.map Prod.fst,
      fuzz_score (lowerNoSep m) (removeChar '_' (pyLower k)) ≤
        (auto_fix_best (lowerNoSep m) (schema.column_mappings.map Prod.fst)).2) ∧
    ((auto_fix_best (lowerNoSep m) (schema.column_mappings.map Prod.fst)).1 = none ∨
      ∃ b ∈ schema.column_mappings.map Prod.fst,
        auto_fix_best (lowerNoSep m) (schema.column_mappings.map Prod.fst) =
          (some b, fuzz_score (lowerNoSep m) (removeChar '_' (pyLower b)))) ∧
    (∀ b, (auto_fix_best (lowerNoSep m) (schema.column_mappings.map Prod.fst)).1 = some b →
      70 < (auto_fix_best (lowerNoSep m) (schema.column_mappings.map Prod.fst)).2 →
      auto_fix_step schema m =
        ⟨dictAppend b m schema.column_mappings, schema.column_types⟩) ∧
    (((auto_fix_best (lowerNoSep m) (schema.column_mappings.map Prod.fst)).1 = none ∨
        (auto_fix_best (lowerNoSep m) (schema.column_mappings.map Prod.fst)).2 ≤ 70) →
      auto_fix_step schema m =
        ⟨dictInsert (replaceChar ' ' '_' (pyLower m)) [m] schema.column_mappings,
         dictInsert (replaceChar ' ' '_' (pyLower m)) "string" schema.column_types⟩) ∧
    auto_fix_missing_columns schema missing = missing.foldl auto_fix_step schema := by
  obtain ⟨_, h2, h3⟩ :=
    auto_fix_fold_inv (lowerNoSep m) (schema.column_mappings.map Prod.fst) (none, 0)
  refine ⟨h2, ?_, ?_, ?_, rfl⟩
  · rcases h3 with h4 | h4
    · refine Or.inl ?_
      have h4' : auto_fix_best (lowerNoSep m) (schema.column_mappings.map Prod.fst) =
          (none, 0) := h4
      rw [h4']
    · obtain ⟨b, hb, h5⟩ := h4
      exact Or.inr ⟨b, hb, h5⟩
  · intro b hb h70
    show (match (auto_fix_best (lowerNoSep m) (schema.column_mappings.map Prod.fst)).1 with
      | some b =>
        if 70 < (auto_fix_best (lowerNoSep m) (schema.column_mappings.map Prod.fst)).2 then
          ({ column_mappings := dictAppend b m schema.column_mappings,
             column_types := schema.column_types } : UnifiedSchema)
        else
          ⟨dictInsert (replaceChar ' ' '_' (pyLower m)) [m] schema.column_mappings,
           dictInsert (replaceChar ' ' '_' (pyLower m)) "string" schema.column_types⟩
      | none =>
        ⟨dictInsert (replaceChar ' ' '_' (pyLower m)) [m] schema.column_mappings,
         dictInsert (replaceChar ' ' '_' (pyLower m)) "string" schema.column_types⟩) = _
    rw [hb]
    dsimp only
    rw [if_pos h70]
  · intro hcase
    show (match (auto_fix_best (lowerNoSep m) (schema.column_mappings.map Prod.fst)).1 with
      | some b =>
        if 70 < (auto_fix_best (lowerNoSep m) (schema.column_mappings.map Prod.fst)).2 then
          ({ column_mappings := dictAppend b m schema.column_mappings,
             column_types := schema.column_types } : UnifiedSchema)
        else
          ⟨dictInsert (replaceChar ' ' '_' (pyLower m)) [m] schema.column_mappings,
           dictInsert (replaceChar ' ' '_' (pyLower m)) "string" schema.column_types⟩
      | none =>
        ⟨dictInsert (replaceChar ' ' '_' (pyLower m)) [m] schema.column_mappings,
         dictInsert (replaceChar ' ' '_' (pyLower m)) "string" schema.column_types⟩) = _
    cases hb : (auto_fix_best (lowerNoSep m) (schema.column_mappings.map Prod.fst)).1 with
    | none => rfl
    | some b =>
      dsimp only
      rcases hcase with h4 | h4
      · rw [hb] at h4
        cases h4
      · rw [if_neg (not_lt.mpr h4)]

/-- Witness for C5: "cattle count" scores 71 > 70 against the standard
name "cattle" and is appended to its variants. -/
theorem C5_amended_witness :
    auto_fix_step ⟨[("cattle", ["x"])], [("cattle", "integer")]⟩ "cattle count" =
      ⟨[("cattle", ["x", "cattle count"])], [("cattle", "integer")]⟩ := by
  have h := (C5_amended ⟨[("cattle", ["x"])], [("cattle", "integer")]⟩
    "cattle count" []).2.2.1 "cattle" (by decide) (by decide)
  rw [h]
  decide

/-! ## Claim C10 -/

theorem tc_loop_skip (c : String × List Cell) (rest : List (String × List Cell))
    (h : tc_skips c = true) :
    extract_tc_loop (c :: rest) = extract_tc_loop rest := by
  unfold tc_skips at h
  by_cases h1 : c.2.filter (fun x => x ≠ Cell.null) = []
  · show (if c.2.filter (fun x => x ≠ Cell.null) = [] then extract_tc_loop rest else _) = _
    rw [if_pos h1]
  · have h1e : (c.2.filter (fun x => x ≠ Cell.null)).isEmpty = false := by
      cases hx : c.2.filter (fun x => x ≠ Cell.null) with
      | nil => exact absurd hx h1
      | cons y ys => rfl
    simp only [h1e, Bool.false_or, Bool.and_eq_true, Bool.not_eq_true'] at h
    obtain ⟨hnum, hpars⟩ := h
    show (if c.2.filter (fun x => x ≠ Cell.null) = [] then extract_tc_loop rest
      else match (if isNumericDtype c.2 then _ else none : Option String) with
        | some r => some r
        | none => _) = _
    rw [if_neg h1, if_neg (fun hcon => Bool.false_ne_true (hnum ▸ hcon))]
    dsimp only
    rw [if_neg (by
      rw [List.isEmpty_iff] at hpars
      intro hcon
      exact hcon hpars)]

theorem tc_loop_prefix_skip (pre : List (String × List Cell))
    (l : List (String × List Cell)) (h : ∀ p ∈ pre, tc_skips p = true) :
    extract_tc_loop (pre ++ l) = extract_tc_loop l := by
  induction pre with
  | nil => rfl
  | cons p ps ih =>
    rw [List.cons_append, tc_loop_skip p _ (h p (List.mem_cons_self _ _)),
      ih (fun x hx => h x (List.mem_cons_of_mem _ hx))]

theorem tc_loop_numeric_hit (c : String × List Cell) (rest : List (String × List Cell))
    (hnum : isNumericDtype c.2 = true)
    (hne : c.2.filter (fun x => x ≠ Cell.null) ≠ [])
    (hint : ((c.2.filter (fun x => x ≠ Cell.null)).filterMap to_numeric_cell).all
      is_integer_year = true) :
    extract_tc_loop (c :: rest) =
      some (if pyInt (listMinQ ((c.2.filter (fun x => x ≠ Cell.null)).filterMap
            to_numeric_cell)) =
          pyInt (listMaxQ ((c.2.filter (fun x => x ≠ Cell.null)).filterMap to_numeric_cell))
        then toString (pyInt (listMinQ ((c.2.filter (fun x => x ≠ Cell.null)).filterMap
          to_numeric_cell)))
        else toString (pyInt (listMinQ ((c.2.filter (fun x => x ≠ Cell.null)).filterMap
          to_numeric_cell))) ++ "-" ++
          toString (pyInt (listMaxQ ((c.2.filter (fun x => x ≠ Cell.null)).filterMap
            to_numeric_cell)))) := by
  have hyne : (c.2.filter (fun x => x ≠ Cell.null)).filterMap to_numeric_cell ≠ [] := by
    cases hs : c.2.filter (fun x => x ≠ Cell.null) with
    | nil => exact absurd hs hne
    | cons x xs =>
      have hx2 : x ∈ c.2 := List.mem_of_mem_filter (hs ▸ List.mem_cons_self x xs)
      have hxn : x ≠ Cell.null := by
        have := List.of_mem_filter (hs ▸ List.mem_cons_self x xs)
        simpa using this
      have hcase := List.all_eq_true.mp hnum x hx2
      cases x with
      | num q =>
        intro hcon
        have h2 : q ∈ List.filterMap to_numeric_cell (Cell.num q :: xs) :=
          List.mem_filterMap.mpr ⟨Cell.num q, List.mem_cons_self _ _, rfl⟩
        rw [hcon] at h2
        cases h2
      | txt s => simp at hcase
      | null => exact absurd rfl hxn
  show (if c.2.filter (fun x => x ≠ Cell.null) = [] then extract_tc_loop rest
    else match (if isNumericDtype c.2 then _ else none : Option String) with
      | some r => some r
      | none => _) = _
  rw [if_neg hne, if_pos hnum]
  dsimp only
  rw [if_pos hyne, if_pos hint]

/-- C10: the metadata synthesizer's own temporal extraction reports, for
the first temporal-token column that yields values (earlier temporal
columns being skipped as unparseable), the PLAIN minimum–maximum of all
its numeric values — no plausible-year window is applied, so 1899 or 2045
survive where the deterministic stats extractor would drop them. -/
theorem C10_no_window (df : DataFrame) (pre : List (String × List Cell))
    (c : String × List Cell) (rest : List (String × List Cell))
    (hsplit : temporal_token_cols df = pre ++ c :: rest)
    (hpre : ∀ p ∈ pre, tc_skips p = true)
    (hnum : isNumericDtype c.2 = true)
    (hne : c.2.filter (fun x => x ≠ Cell.null) ≠ [])
    (hint : ((c.2.filter (fun x => x ≠ Cell.null)).filterMap to_numeric_cell).all
      is_integer_year = true) :
    extract_temporal_coverage df =
      some (if pyInt (listMinQ ((c.2.filter (fun x => x ≠ Cell.null)).filterMap
            to_numeric_cell)) =
          pyInt (listMaxQ ((c.2.filter (fun x => x ≠ Cell.null)).filterMap to_numeric_cell))
        then toString (pyInt (listMinQ ((c.2.filter (fun x => x ≠ Cell.null)).filterMap
          to_numeric_cell)))
        else toString (pyInt (listMinQ ((c.2.filter (fun x => x ≠ Cell.null)).filterMap
          to_numeric_cell))) ++ "-" ++
          toString (pyInt (listMaxQ ((c.2.filter (fun x => x ≠ Cell.null)).filterMap
            to_numeric_cell)))) := by
  unfold extract_temporal_coverage
  rw [hsplit, tc_loop_prefix_skip pre _ hpre, tc_loop_numeric_hit c rest hnum hne hint]

/-- Witness for C10: the year column `[1899, 2023, 2045]` — after an
unparseable "date_note" column that is skipped — yields "1899-2045" in the
metadata record while the deterministic stats extractor reports "2023". -/
theorem C10_no_window_witness :
    extract_temporal_coverage
      [("date_note", [Cell.txt "registry"]),
       ("year", [Cell.num 1899, Cell.num 2023, Cell.num 2045])] = some "1899-2045" ∧
    (get_temporal_range
      [("date_note", [Cell.txt "registry"]),
       ("year", [Cell.num 1899, Cell.num 2023, Cell.num 2045])]).range_str = "2023" := by
  constructor
  · have h := C10_no_window
      [("date_note", [Cell.txt "registry"]),
       ("year", [Cell.num 1899, Cell.num 2023, Cell.num 2045])]
      [("date_note", [Cell.txt "registry"])]
      ("year", [Cell.num 1899, Cell.num 2023, Cell.num 2045]) []
      (by decide) (by decide) (by decide) (by decide) (by decide)
    rw [h]
    decide
  · decide

/-! ## Claim C1 -/

theorem lcsFuel_self (l : List Char) : ∀ f, l.length ≤ f → lcsFuel f l l = l.length := by
  induction l with
  | nil =>
    intro f _
    cases f with
    | zero => rfl
    | succ g => rfl
  | cons a t ih =>
    intro f hf
    cases f with
    | zero => exact absurd hf (Nat.not_succ_le_zero t.length)
    | succ g =>
      show (if a = a then lcsFuel g t t + 1
        else max (lcsFuel g (a :: t) t) (lcsFuel g t (a :: t))) = (a :: t).length
      rw [if_pos rfl, ih g (by rw [List.length_cons] at hf; omega), List.length_cons]

theorem str_ne_empty_length (s : String) (h : s ≠ "") : s.length ≠ 0 := by
  intro h0
  apply h
  cases s with
  | mk data =>
    cases data with
    | nil => rfl
    | cons a t => exact absurd h0 (Nat.succ_ne_zero t.length)

theorem pyRoundNat_hundred (n : Nat) (hn : 0 < n) : pyRoundNat (100 * n) n = 100 := by
  have h1 : 100 * n % n = 0 := by simp
  have h2 : 100 * n / n = 100 := Nat.mul_div_cancel 100 hn
  unfold pyRoundNat
  rw [h1, h2, if_pos (show 2 * 0 < n by omega)]

theorem fuzz_score_raw_self (s : String) (h : s ≠ "") :
    (pyRoundNat (200 * lcsLen s s) (s.length + s.length) : ℤ) = 100 := by
  have hl : s.length ≠ 0 := str_ne_empty_length s h
  have hlcs : lcsLen s s = s.length := by
    unfold lcsLen
    exact lcsFuel_self s.toList (s.length + s.length) (Nat.le_add_right _ _)
  rw [hlcs]
  rw [show 200 * s.length = 100 * (s.length + s.length) by ring]
  rw [pyRoundNat_hundred _ (by omega)]
  rfl

theorem convert_column_integer_eq (vs : List Cell) :
    convert_column "integer" vs =
      (if (vs.map to_numeric_cell).all
          (fun o => match o with | none => true | some q => q.den = 1) then
        (vs.map to_numeric_cell).map
          (fun o => match o with | none => Cell.null | some q => Cell.num q)
       else vs) := rfl

theorem convert_column_float_eq (vs : List Cell) :
    convert_column "float" vs =
      vs.map (fun c => match to_numeric_cell c with
        | none => Cell.null | some q => Cell.num q) := rfl

theorem convert_column_string_eq (vs : List Cell) :
    convert_column "string" vs = vs.map (fun c => Cell.txt (pyStrCell c)) := rfl

theorem convert_column_other_eq (t : String) (vs : List Cell)
    (h1 : t ≠ "integer") (h2 : t ≠ "float") (h3 : t ≠ "string") :
    convert_column t vs = vs := by
  unfold convert_column
  rw [if_neg h1, if_neg h2, if_neg h3]

theorem convert_column_idem (t : String) (vs : List Cell) :
    convert_column t (convert_column t vs) = convert_column t vs := by
  by_cases h1 : t = "integer"
  · subst h1
    by_cases hall : (vs.map to_numeric_cell).all
        (fun o => match o with | none => true | some q => q.den = 1) = true
    · have hres : convert_column "integer" vs =
          (vs.map to_numeric_cell).map
            (fun o => match o with | none => Cell.null | some q => Cell.num q) := by
        rw [convert_column_integer_eq, if_pos hall]
      have hkey : (((vs.map to_numeric_cell).map
          (fun o => match o with | none => Cell.null | some q => Cell.num q)).map
            to_numeric_cell) = vs.map to_numeric_cell := by
        rw [List.map_map]
        rw [show (to_numeric_cell ∘ fun o => match o with
            | none => Cell.null | some q => Cell.num q) = (fun o => o) by
          funext o
          cases o <;> rfl]
        exact List.map_id' _
      rw [hres, convert_column_integer_eq, hkey, if_pos hall]
    · have hres : convert_column "integer" vs = vs := by
        rw [convert_column_integer_eq, if_neg hall]
      rw [hres, hres]
  · by_cases h2 : t = "float"
    · subst h2
      rw [convert_column_float_eq vs, convert_column_float_eq, List.map_map]
      apply List.map_congr_left
      intro c _
      show (match to_numeric_cell (match to_numeric_cell c with
        | none => Cell.null | some q => Cell.num q) with
        | none => Cell.null | some q => Cell.num q) =
        (match to_numeric_cell c with | none => Cell.null | some q => Cell.num q)
      cases to_numeric_cell c <;> rfl
    · by_cases h3 : t = "string"
      · subst h3
        rw [convert_column_string_eq vs, convert_column_string_eq, List.map_map]
        apply List.map_congr_left
        intro c _
        rfl
      · rw [convert_column_other_eq t vs h1 h2 h3, convert_column_other_eq t vs h1 h2 h3]

theorem map_eq_self_mem {α : Type} (l : List α) (f : α → α) (h : l.map f = l) :
    ∀ x ∈ l, f x = x := by
  induction l with
  | nil => exact fun x hx => absurd hx (List.not_mem_nil x)
  | cons a t ih =>
    rw [List.map_cons] at h
    injection h with h1 h2
    intro x hx
    rcases List.mem_cons.mp hx with he | ht
    · subst he
      exact h1
    · exact ih h2 x ht

theorem filter_single (t : DataFrame) (hnd : (t.map Prod.fst).Nodup) (k : String)
    (hkn : k ∈ t.map Prod.fst) : ∃ v, t.filter (fun c => c.1 = k) = [(k, v)] := by
  induction t with
  | nil => cases hkn
  | cons c ts ih =>
    rw [List.map_cons, List.nodup_cons] at hnd
    by_cases hck : c.1 = k
    · refine ⟨c.2, ?_⟩
      rw [List.filter_cons_of_pos (by simp [hck])]
      rw [filter_name_eq_nil ts k (by rw [← hck]; exact hnd.1)]
      subst hck
      rfl
    · rw [List.filter_cons_of_neg (by simp [hck])]
      apply ih hnd.2
      rw [List.map_cons] at hkn
      rcases List.mem_cons.mp hkn with h | h
      · exact absurd h.symm hck
      · exact h

theorem not_dupName_of_nodup (df : DataFrame) (hnd : (df.map Prod.fst).Nodup)
    (n : String) : ¬ dupName df n := by
  unfold dupName
  intro h
  by_cases hn : n ∈ df.map Prod.fst
  · obtain ⟨v, hv⟩ := filter_single df hnd n hn
    rw [hv] at h
    simp at h
  · rw [filter_name_eq_nil df n hn] at h
    simp at h

theorem convertStep_eq_of_not_dup (schema : UnifiedSchema) (df1 df2 : DataFrame)
    (c : String × List Cell) (h1 : ¬ dupName df1 c.1) (h2 : ¬ dupName df2 c.1) :
    convertStep schema df1 c = convertStep schema df2 c := by
  unfold convertStep
  cases List.lookup c.1 schema.column_types with
  | none => rfl
  | some t =>
    dsimp only
    rw [if_neg (fun hg => h1 hg.2), if_neg (fun hg => h2 hg.2)]

theorem convert_types_idem (schema : UnifiedSchema) (w : DataFrame) :
    convert_types schema (convert_types schema w) = convert_types schema w := by
  unfold convert_types
  rw [List.map_map]
  apply List.map_congr_left
  intro c hc
  show convertStep schema (w.map (convertStep schema w)) (convertStep schema w c) =
    convertStep schema w c
  have hfilt : ∀ n, ((w.map (convertStep schema w)).filter
      (fun x => x.1 = n)).length = (w.filter (fun x => x.1 = n)).length := by
    intro n
    rw [List.filter_map, List.length_map]
    congr 1
    apply List.filter_congr
    intro x _
    simp only [Function.comp]
    rw [convertStep_fst]
  have hdup : ∀ n, dupName (w.map (convertStep schema w)) n ↔ dupName w n := by
    intro n
    unfold dupName
    rw [hfilt n]
  cases hlk : List.lookup c.1 schema.column_types with
  | none =>
    have hin : convertStep schema w c = c := by
      unfold convertStep
      rw [hlk]
    rw [hin]
    unfold convertStep
    rw [hlk]
  | some t =>
    by_cases hg : (t = "integer" ∨ t = "float") ∧ dupName w c.1
    · have hin : convertStep schema w c = c := by
        unfold convertStep
        rw [hlk]
        dsimp only
        rw [if_pos hg]
      rw [hin]
      unfold convertStep
      rw [hlk]
      dsimp only
      rw [if_pos ⟨hg.1, (hdup c.1).mpr hg.2⟩]
    · have hin : convertStep schema w c = (c.1, convert_column t c.2) := by
        unfold convertStep
        rw [hlk]
        dsimp only
        rw [if_neg hg]
      rw [hin]
      unfold convertStep
      show (match List.lookup c.1 schema.column_types with
        | none => (c.1, convert_column t c.2)
        | some t' =>
          if (t' = "integer" ∨ t' = "float") ∧
              dupName (w.map (convertStep schema w)) c.1 then
            (c.1, convert_column t c.2)
          else (c.1, convert_column t' (convert_column t c.2))) =
        (c.1, convert_column t c.2)

      rw [hlk]
      dsimp only
      rw [if_neg (fun hg2 => hg ⟨hg2.1, (hdup c.1).mp hg2.2⟩)]
      rw [convert_column_idem]

theorem flatMap_id_singleton (l : List String) : l.flatMap (fun x => [x]) = l := by
  induction l with
  | nil => rfl
  | cons a t ih =>
    rw [List.flatMap_cons, ih]
    rfl

theorem reorder_names (schema : UnifiedSchema) (t : DataFrame)
    (hnd : (t.map Prod.fst).Nodup) :
    (reorder_columns schema t).map Prod.fst =
      ((schema.column_mappings.map Prod.fst).filter
        (fun k => (t.map Prod.fst).contains k)) ++
      ((t.map Prod.fst).filter (fun n =>
        !(((schema.column_mappings.map Prod.fst).filter
          (fun k => (t.map Prod.fst).contains k)).contains n))) := by
  show (((((schema.column_mappings.map Prod.fst).filter
      (fun k => (t.map Prod.fst).contains k)) ++
      ((t.map Prod.fst).filter (fun n =>
        !(((schema.column_mappings.map Prod.fst).filter
          (fun k => (t.map Prod.fst).contains k)).contains n)))).flatMap
      (fun k => t.filter (fun c => c.1 = k))).map Prod.fst) = _
  rw [List.map_flatMap]
  have hper : ∀ k ∈ (((schema.column_mappings.map Prod.fst).filter
      (fun k => (t.map Prod.fst).contains k)) ++
      ((t.map Prod.fst).filter (fun n =>
        !(((schema.column_mappings.map Prod.fst).filter
          (fun k => (t.map Prod.fst).contains k)).contains n)))),
      (t.filter (fun c => c.1 = k)).map Prod.fst = [k] := by
    intro k hk
    have hkn : k ∈ t.map Prod.fst := by
      rcases List.mem_append.mp hk with h | h
      · exact (contains_eq_mem _ _).mp (List.of_mem_filter h)
      · exact List.mem_of_mem_filter h
    obtain ⟨v, hv⟩ := filter_single t hnd k hkn
    rw [hv]
    rfl
  rw [flatMap_congr_mem _ _ _ hper, flatMap_id_singleton]

theorem reorder_names_nodup (schema : UnifiedSchema) (t : DataFrame)
    (hnd : (t.map Prod.fst).Nodup)
    (hk : (schema.column_mappings.map Prod.fst).Nodup) :
    ((reorder_columns schema t).map Prod.fst).Nodup := by
  rw [reorder_names schema t hnd]
  refine List.Nodup.append (List.Nodup.filter _ hk) (List.Nodup.filter _ hnd) ?_
  intro a ha1 ha2
  have hp := List.of_mem_filter ha2
  rw [Bool.not_eq_true'] at hp
  exact absurd ((contains_eq_mem _ _).mpr ha1) (by rw [hp]; exact Bool.false_ne_true)

theorem reorder_idem (schema : UnifiedSchema) (t : DataFrame)
    (hnd : (t.map Prod.fst).Nodup)
    (hk : (schema.column_mappings.map Prod.fst).Nodup) :
    reorder_columns schema (reorder_columns schema t) = reorder_columns schema t := by
  have hnames := reorder_names schema t hnd
  have hrnd : ((reorder_columns schema t).map Prod.fst).Nodup :=
    reorder_names_nodup schema t hnd hk
  show ((((schema.column_mappings.map Prod.fst).filter
      (fun k => ((reorder_columns schema t).map Prod.fst).contains k)) ++
      (((reorder_columns schema t).map Prod.fst).filter (fun n =>
        !(((schema.column_mappings.map Prod.fst).filter
          (fun k => ((reorder_columns schema t).map Prod.fst).contains k)).contains n)))).flatMap
      (fun k => (reorder_columns schema t).filter (fun c => c.1 = k))) =
    reorder_columns schema t
  have hord : (schema.column_mappings.map Prod.fst).filter
      (fun k => ((reorder_columns schema t).map Prod.fst).contains k) =
      (schema.column_mappings.map Prod.fst).filter
      (fun k => (t.map Prod.fst).contains k) := by
    apply List.filter_congr
    intro k _
    have hiff : k ∈ (reorder_columns schema t).map Prod.fst ↔ k ∈ t.map Prod.fst := by
      constructor
      · intro h
        rw [hnames] at h
        rcases List.mem_append.mp h with h | h
        · exact (contains_eq_mem _ _).mp (List.of_mem_filter h)
        · exact List.mem_of_mem_filter h
      · intro h
        rw [hnames]
        exact sel_covers _ _ k h
    cases hb : (t.map Prod.fst).contains k with
    | true => exact (contains_eq_mem _ _).mpr (hiff.mpr ((contains_eq_mem _ _).mp hb))
    | false =>
      cases hb2 : ((reorder_columns schema t).map Prod.fst).contains k with
      | false => rfl
      | true =>
        have hkt := (contains_eq_mem _ _).mpr (hiff.mp ((contains_eq_mem _ _).mp hb2))
        rw [hb] at hkt
        exact absurd hkt Bool.false_ne_true
  rw [hord]
  have hsub1 : ((schema.column_mappings.map Prod.fst).filter
      (fun k => (t.map Prod.fst).contains k)).filter (fun n =>
        !(((schema.column_mappings.map Prod.fst).filter
          (fun k => (t.map Prod.fst).contains k)).contains n)) = [] :=
    List.filter_eq_nil_iff.mpr (fun a ha => by
      rw [(contains_eq_mem _ _).mpr ha]
      decide)
  have hsub2 : ((t.map Prod.fst).filter (fun n =>
      !(((schema.column_mappings.map Prod.fst).filter
        (fun k => (t.map Prod.fst).contains k)).contains n))).filter (fun n =>
        !(((schema.column_mappings.map Prod.fst).filter
          (fun k => (t.map Prod.fst).contains k)).contains n)) =
      (t.map Prod.fst).filter (fun n =>
      !(((schema.column_mappings.map Prod.fst).filter
        (fun k => (t.map Prod.fst).contains k)).contains n)) := by
    apply List.filter_eq_self.mpr
    intro a ha
    have h2 := List.of_mem_filter ha
    exact h2
  have hsel : ((schema.column_mappings.map Prod.fst).filter
      (fun k => (t.map Prod.fst).contains k)) ++
      (((reorder_columns schema t).map Prod.fst).filter (fun n =>
        !(((schema.column_mappings.map Prod.fst).filter
          (fun k => (t.map Prod.fst).contains k)).contains n))) =
      (reorder_columns schema t).map Prod.fst := by
    rw [hnames, List.filter_append, hsub1, hsub2, List.nil_append]
  rw [hsel]
  exact flatMap_filter_self (reorder_columns schema t) hrnd

/-- C8 counterexample: transform is not idempotent. With the schema
`{"state": ["region"], "region": ["area"]}` the first pass renames the raw
column "area" to "region"; the second pass then renames that output column
"region" to "state", so the second harmonized table differs from the
first. -/
theorem C8_counterexample :
    (transform ⟨[("state", ["region"]), ("region", ["area"])], []⟩
        (transform ⟨[("state", ["region"]), ("region", ["area"])], []⟩
          [("area", [Cell.txt "x"])]).1).1 ≠
      (transform ⟨[("state", ["region"]), ("region", ["area"])], []⟩
        [("area", [Cell.txt "x"])]).1 := by
  decide

/-- C8 amended: transform IS idempotent on the harmonized table whenever
(a) the post-rename column names of the frame are pairwise distinct,
(b) the schema keys are pairwise distinct, and (c) every output column
name is a fixed point of the matcher (it matches itself or nothing) — the
failure mode being schemas whose keys occur as variants of other keys, as
in the counterexample. -/
theorem C8_amended (schema : UnifiedSchema) (df : DataFrame)
    (hrn : (df.map (renamedName schema)).Nodup)
    (hk : (schema.column_mappings.map Prod.fst).Nodup)
    (hself : ∀ n ∈ (transform schema df).1.map Prod.fst,
      find_best_match schema n = some n ∨ find_best_match schema n = none) :
    (transform schema (transform schema df).1).1 = (transform schema df).1 := by
  show reorder_columns schema (convert_types schema (rename_columns
      (build_file_mapping schema ((transform schema df).1.map Prod.fst))
      (transform schema df).1)) = (transform schema df).1
  have hout : (transform schema df).1 = reorder_columns schema (convert_types schema
      (rename_columns (build_file_mapping schema (df.map Prod.fst)) df)) := rfl
  rw [hout]
  set Z : DataFrame := convert_types schema
    (rename_columns (build_file_mapping schema (df.map Prod.fst)) df) with hZ
  have hznd : (Z.map Prod.fst).Nodup := by
    rw [hZ, convert_names, rename_names]
    exact hrn
  have hzz : convert_types schema Z = Z := by
    rw [hZ]
    exact convert_types_idem schema _
  have hfix : ∀ c ∈ Z, convertStep schema Z c = c :=
    map_eq_self_mem Z (convertStep schema Z) hzz
  have hrnd2 : ((reorder_columns schema Z).map Prod.fst).Nodup :=
    reorder_names_nodup schema Z hznd hk
  have hself' : ∀ n ∈ (reorder_columns schema Z).map Prod.fst,
      find_best_match schema n = some n ∨ find_best_match schema n = none := hself
  have hR : rename_columns (build_file_mapping schema
      ((reorder_columns schema Z).map Prod.fst)) (reorder_columns schema Z) =
      reorder_columns schema Z := by
    unfold rename_columns
    have hstep : ∀ c ∈ reorder_columns schema Z, renameStep (build_file_mapping schema
        ((reorder_columns schema Z).map Prod.fst)) c = c := by
      intro c hc
      unfold renameStep
      rw [lookup_build schema _ c.1 (List.mem_map_of_mem _ hc)]
      rcases hself' c.1 (List.mem_map_of_mem _ hc) with h | h
      · rw [h]
      · rw [h]
    rw [List.map_congr_left hstep, List.map_id']
  have hC : convert_types schema (reorder_columns schema Z) =
      reorder_columns schema Z := by
    unfold convert_types
    have hstep : ∀ c ∈ reorder_columns schema Z,
        convertStep schema (reorder_columns schema Z) c = c := by
      intro c hc
      rw [convertStep_eq_of_not_dup schema _ Z c
        (not_dupName_of_nodup _ hrnd2 c.1) (not_dupName_of_nodup _ hznd c.1)]
      exact hfix c (mem_reorder schema Z c hc)
    rw [List.map_congr_left hstep, List.map_id']
  rw [hR, hC]
  exact reorder_idem schema Z hznd hk

/-- Witness for C8: a self-consistent schema (each key among its own
variants, keys not variants of other keys) on a two-column frame; the
second transform reproduces the first harmonized table. -/
theorem C8_amended_witness :
    (transform ⟨[("district", ["district", "Dist"]),
        ("population_count", ["population_count", "Pop"])],
        [("population_count", "integer")]⟩
      (transform ⟨[("district", ["district", "Dist"]),
          ("population_count", ["population_count", "Pop"])],
          [("population_count", "integer")]⟩
        [("Dist", [Cell.txt "a"]), ("Pop", [Cell.txt "12"])]).1).1 =
    (transform ⟨[("district", ["district", "Dist"]),
        ("population_count", ["population_count", "Pop"])],
        [("population_count", "integer")]⟩
      [("Dist", [Cell.txt "a"]), ("Pop", [Cell.txt "12"])]).1 :=
  C8_amended ⟨[("district", ["district", "Dist"]),
      ("population_count", ["population_count", "Pop"])],
      [("population_count", "integer")]⟩
    [("Dist", [Cell.txt "a"]), ("Pop", [Cell.txt "12"])]
    (by decide) (by decide) (by decide)

end Harmonize
